import Mathlib

/-!
Verification development for the fidelity-server trip-monitoring service.

The definitions below are a shallow embedding of the server source
(`src/unnamed/part_000`, plus the offline audit script
`src/check-after-3pm.js`).  Timestamps are integers (milliseconds, the value
of `Date.getTime()`); numbers carried by telemetry are rationals; the
persistence layer (Supabase) is modelled as an explicit record of tables,
with every external write going through a success/failure oracle so that
write failures can be reasoned about.  The great-circle distance function
(`@turf/distance`) is kept abstract as a parameter `dist` of the pipeline;
a real-number model of it is given separately for the numeric geofence
claims.
-/

namespace FidelityServer

/-- Timestamps in milliseconds, as produced by `new Date(...)`/`Date.now()`. -/
abbrev Millis := Int

/-- A parsed inbound WebSocket telemetry record.  `none` in a numeric field
models a missing (`undefined`) field; JS truthiness makes both `undefined`
and `0` falsy, which `numFalsy` captures.  `locTime = none` models a
missing/empty `LocTime` string, `locTime = some none` a present string that
`new Date(...)` fails to parse (`isNaN(locTime.getTime())`), and
`locTime = some (some t)` a string parsing to time `t`. -/
structure VehicleData where
  plate : String
  speed : Option ℚ
  latitude : Option ℚ
  longitude : Option ℚ
  locTime : Option (Option Millis)
  deriving DecidableEq

/-- JS truthiness of an optional numeric field: `undefined` and `0` are falsy. -/
def numFalsy : Option ℚ → Bool
  | none => true
  | some q => q == 0

/-- Value of a numeric field after `parseFloat` (guards ensure it is present). -/
def qget : Option ℚ → ℚ
  | none => 0
  | some q => q

/-- The JS test `Speed > 0` (`undefined > 0` is false). -/
def spGt0 : Option ℚ → Bool
  | none => false
  | some q => decide (0 < q)

/-- One entry of the `vehicleStops` map:
`{ stopStart, location: {lat, lng}, lastLocTime, processed }`.
The `processed` key is absent (falsy) until the long-stop handler has run. -/
structure StopInfo where
  stopStart : Millis
  location : ℚ × ℚ
  lastLocTime : Millis
  processed : Bool
  deriving DecidableEq

/-- Functional model of a JS `Map` keyed by strings: `set`. -/
def mset (m : String → Option α) (k : String) (v : α) : String → Option α :=
  fun k2 => if k2 = k then some v else m k2

/-- Functional model of a JS `Map` keyed by strings: `delete`. -/
def mdel (m : String → Option α) (k : String) : String → Option α :=
  fun k2 => if k2 = k then none else m k2

/-- The server's in-memory state: the `activeTrips` registry
(tripId -> vehiclePlate), the `vehicleDataCache` (plate -> latest record)
and the `vehicleStops` stop-interval tracker (plate -> StopInfo). -/
structure ServerState where
  activeTrips : String → Option String
  vehicleDataCache : String → Option VehicleData
  vehicleStops : String → Option StopInfo

/-- Source `startTripMonitoring(tripId, vehiclePlate)`: a no-op when the
trip id is already registered, otherwise registers the entry. -/
def startTripMonitoring (st : ServerState) (tripId plate : String) : ServerState :=
  match st.activeTrips tripId with
  | some _ => st
  | none => { st with activeTrips := mset st.activeTrips tripId plate }

/-- Source `stopTripMonitoring(tripId)`: removes the entry when present. -/
def stopTripMonitoring (st : ServerState) (tripId : String) : ServerState :=
  match st.activeTrips tripId with
  | some _ => { st with activeTrips := mdel st.activeTrips tripId }
  | none => st

/-- A `route_plans` row (the columns the server reads and writes). -/
structure Trip where
  trip_id : String
  vehicle_plate : String
  actual_start_time : Option Millis
  actual_end_time : Option Millis
  deriving DecidableEq

/-- An `assigned_customers` row (the columns the server reads and writes). -/
structure Customer where
  trip_id : String
  customer_code : String
  lat : ℚ
  lng : ℚ
  completed : Bool
  completed_at : Option Millis
  deriving DecidableEq

/-- A `trip_coordinates` row as inserted by `processVehicleData`. -/
structure CoordRow where
  trip_id : String
  vehicle_plate : String
  lat : ℚ
  lng : ℚ
  speed : ℚ
  timestamp : Millis
  deriving DecidableEq

/-- The external store. -/
structure DB where
  route_plans : List Trip
  assigned_customers : List Customer
  trip_coordinates : List CoordRow
  deriving DecidableEq

/-- The external writes the server issues. -/
inductive WriteOp
  | setStart (trip_id : String) (t : Millis)
  | insertCoord (row : CoordRow)
  | markCompleted (trip_id : String) (customer_code : String) (t : Millis)
  | completeTrip (trip_id : String) (t : Millis)
  deriving DecidableEq

/-- Effect of a successful write.  `setStart` and `markCompleted` are the
source's `update ... eq(...)` calls, updating every matching row;
`insertCoord` appends to the coordinate log.  `completeTrip` is the
`complete_trip` RPC.  Modelled from the spec: the RPC body is SQL that is
not part of the repository source; per spec section 4.3 the
`ACTIVE -> COMPLETED` transition it implements persists the trip's end
(and the repository guide `tripMonitoring.md`, "End Trip", sets
`actual_end_time = NOW()` for the trip), so it is modelled as setting
`actual_end_time`. -/
def DB.applyWrite (db : DB) : WriteOp → DB
  | WriteOp.setStart tid t =>
    { db with route_plans := db.route_plans.map fun tr =>
        if tr.trip_id = tid then { tr with actual_start_time := some t } else tr }
  | WriteOp.insertCoord row =>
    { db with trip_coordinates := db.trip_coordinates ++ [row] }
  | WriteOp.markCompleted tid code t =>
    { db with assigned_customers := db.assigned_customers.map fun c =>
        if c.trip_id = tid ∧ c.customer_code = code then
          { c with completed := true, completed_at := some t } else c }
  | WriteOp.completeTrip tid t =>
    { db with route_plans := db.route_plans.map fun tr =>
        if tr.trip_id = tid then { tr with actual_end_time := some t } else tr }

/-- A write either succeeds (and takes effect) or fails (throws, leaving the
store untouched), as decided by the failure oracle. -/
def doWrite (oracle : WriteOp → Bool) (db : DB) (w : WriteOp) : Except Unit DB :=
  if oracle w then Except.ok (db.applyWrite w) else Except.error ()

/-- Oracle under which every external write succeeds (normal operation). -/
def allOk : WriteOp → Bool := fun _ => true

/-- Query of `processVehicleData`: rows for the plate with
`actual_end_time` null (trip created or active). -/
def DB.openTrips (db : DB) (plate : String) : List Trip :=
  db.route_plans.filter fun t =>
    decide (t.vehicle_plate = plate ∧ t.actual_end_time = none)

/-- Query of `handleLongStop`: rows for the plate with `actual_start_time`
not null and `actual_end_time` null. -/
def DB.startedOpenTrips (db : DB) (plate : String) : List Trip :=
  db.route_plans.filter fun t =>
    decide (t.vehicle_plate = plate ∧ t.actual_start_time ≠ none ∧ t.actual_end_time = none)

/-- Query of `checkTripCompletion`: all customer rows of the trip. -/
def DB.customersAll (db : DB) (tid : String) : List Customer :=
  db.assigned_customers.filter fun c => decide (c.trip_id = tid)

/-- Query of the geofence paths: customer rows of the trip with
`completed = false`. -/
def DB.customersIncomplete (db : DB) (tid : String) : List Customer :=
  db.assigned_customers.filter fun c =>
    decide (c.trip_id = tid ∧ c.completed = false)

/-- Source `checkTripCompletion(tripId)`: fetches the trip's customers; when
at least one exists and `every(c => c.completed)`, invokes the
`complete_trip` RPC.  Returns the store and whether the RPC fired; a failed
RPC write propagates as a thrown error. -/
def checkTripCompletion (oracle : WriteOp → Bool) (db : DB) (tid : String)
    (now : Millis) : Except Unit (DB × Bool) :=
  let customers := db.customersAll tid
  if customers.length > 0 then
    if customers.all fun c => c.completed then
      match doWrite oracle db (WriteOp.completeTrip tid now) with
      | Except.ok db2 => Except.ok (db2, true)
      | Except.error e => Except.error e
    else Except.ok (db, false)
  else Except.ok (db, false)

/-- Outcome of a geofence loop: the store after the writes that succeeded,
the stops marked (`trip_id, customer_code` of each `markCompleted` issued
and applied), the trips for which `complete_trip` fired, and whether an
exception escaped (after which the loop stopped). -/
structure LoopOut where
  db : DB
  marks : List (String × String)
  fires : List String
  threw : Bool
  deriving DecidableEq

/-- The customer loop of `handleLongStop`: marks every fetched customer
within 1.0 km of the stored stop location; no completion check inside the
loop. -/
def longStopLoop (oracle : WriteOp → Bool) (dist : ℚ × ℚ → ℚ × ℚ → ℚ)
    (vp : ℚ × ℚ) (tid : String) (now : Millis) :
    DB → List Customer → LoopOut
  | db, [] => ⟨db, [], [], false⟩
  | db, c :: rest =>
    if dist vp (c.lng, c.lat) ≤ 1 then
      match doWrite oracle db (WriteOp.markCompleted tid c.customer_code now) with
      | Except.error _ => ⟨db, [], [], true⟩
      | Except.ok db2 =>
        let out := longStopLoop oracle dist vp tid now db2 rest
        ⟨out.db, (tid, c.customer_code) :: out.marks, out.fires, out.threw⟩
    else longStopLoop oracle dist vp tid now db rest

/-- The customer loop of `processVehicleData`: marks every fetched customer
within 1.0 km of the vehicle position and runs `checkTripCompletion` after
each mark. -/
def telemetryLoop (oracle : WriteOp → Bool) (dist : ℚ × ℚ → ℚ × ℚ → ℚ)
    (vp : ℚ × ℚ) (tid : String) (now : Millis) :
    DB → List Customer → LoopOut
  | db, [] => ⟨db, [], [], false⟩
  | db, c :: rest =>
    if dist vp (c.lng, c.lat) ≤ 1 then
      match doWrite oracle db (WriteOp.markCompleted tid c.customer_code now) with
      | Except.error _ => ⟨db, [], [], true⟩
      | Except.ok db2 =>
        match checkTripCompletion oracle db2 tid now with
        | Except.error _ => ⟨db2, [(tid, c.customer_code)], [], true⟩
        | Except.ok (db3, fired) =>
          let out := telemetryLoop oracle dist vp tid now db3 rest
          ⟨out.db, (tid, c.customer_code) :: out.marks,
            (if fired then [tid] else []) ++ out.fires, out.threw⟩
    else telemetryLoop oracle dist vp tid now db rest

/-- Source `handleLongStop(vehiclePlate, location)`: finds the first
started, unended trip for the plate (none: return), fetches its incomplete
customers, marks those within 1.0 km of the stop's stored location
(`[location.lng, location.lat]` as the vehicle point), then runs
`checkTripCompletion` once.  The fetched customer list is always an array
here, so the `if (customers)` guard always passes. -/
def handleLongStop (oracle : WriteOp → Bool) (dist : ℚ × ℚ → ℚ × ℚ → ℚ)
    (db : DB) (plate : String) (loc : ℚ × ℚ) (now : Millis) : LoopOut :=
  match db.startedOpenTrips plate with
  | [] => ⟨db, [], [], false⟩
  | t :: _ =>
    let out := longStopLoop oracle dist (loc.2, loc.1) t.trip_id now db
      (db.customersIncomplete t.trip_id)
    if out.threw then out
    else
      match checkTripCompletion oracle out.db t.trip_id now with
      | Except.error _ => ⟨out.db, out.marks, out.fires, true⟩
      | Except.ok (db2, fired) =>
        ⟨db2, out.marks, out.fires ++ (if fired then [t.trip_id] else []), false⟩

/-- Observable outcome of one `processVehicleData` call. `startedTrip`
records the trip whose `actual_start_time` write was issued and applied;
`threw` records that an exception escaped the function.  In the source the
`catch` block first logs, then evaluates `trip_id`, which is declared with
`let` inside the `try` block and hence not in scope in the `catch`: that
reference throws a `ReferenceError` before `stopTripMonitoring(trip_id)`
can run, so the error path performs no registry mutation and rethrows. -/
structure ProcOut where
  db : DB
  startedTrip : Option String
  coordInserted : Bool
  marks : List (String × String)
  fires : List String
  threw : Bool
  deriving DecidableEq

/-- Part of `processVehicleData` after the trip-start check: return unless
the trip has (now locally) started, insert the coordinate row, fetch the
incomplete customers and run the marking loop. -/
def pvdAfterStart (oracle : WriteOp → Bool) (dist : ℚ × ℚ → ℚ × ℚ → ℚ)
    (db : DB) (msg : VehicleData) (now : Millis) (tid : String)
    (actualStart : Option Millis) (started : Option String) : ProcOut :=
  if actualStart = none then ⟨db, started, false, [], [], false⟩
  else
    match doWrite oracle db (WriteOp.insertCoord
        ⟨tid, msg.plate, qget msg.latitude, qget msg.longitude,
          qget msg.speed, now⟩) with
    | Except.error _ => ⟨db, started, false, [], [], true⟩
    | Except.ok db1 =>
      let out := telemetryLoop oracle dist (qget msg.longitude, qget msg.latitude)
        tid now db1 (db1.customersIncomplete tid)
      ⟨out.db, started, true, out.marks, out.fires, out.threw⟩

/-- Source `processVehicleData(vehicleData)`: returns when plate or a
coordinate is falsy; fetches the plate's unended trips and returns when
none; on the first row, when `actual_start_time` is null and `Speed > 0`,
persists `actual_start_time = now` and continues with the locally updated
value; returns unless started; inserts the coordinate row; marks customers
within 1.0 km, checking completion after each mark. -/
def processVehicleData (oracle : WriteOp → Bool) (dist : ℚ × ℚ → ℚ × ℚ → ℚ)
    (db : DB) (msg : VehicleData) (now : Millis) : ProcOut :=
  if msg.plate.isEmpty || numFalsy msg.latitude || numFalsy msg.longitude then
    ⟨db, none, false, [], [], false⟩
  else
    match db.openTrips msg.plate with
    | [] => ⟨db, none, false, [], [], false⟩
    | t :: _ =>
      if t.actual_start_time = none ∧ spGt0 msg.speed = true then
        match doWrite oracle db (WriteOp.setStart t.trip_id now) with
        | Except.error _ => ⟨db, none, false, [], [], true⟩
        | Except.ok db1 =>
          pvdAfterStart oracle dist db1 msg now t.trip_id (some now) (some t.trip_id)
      else
        pvdAfterStart oracle dist db msg now t.trip_id t.actual_start_time none

/-- Observable outcome of one `ws.on('message')` invocation.  The handler
wraps everything in try/catch, so it always returns (the ingestion loop
accepts the next sample); `caughtError` records that its catch logged a
thrown error. -/
structure HandlerResult where
  state : ServerState
  db : DB
  startedTrip : Option String
  coordInserted : Bool
  marks : List (String × String)
  fires : List String
  longStopInvoked : Bool
  loggedMissingCoords : Bool
  loggedInvalidLocTime : Bool
  calledProcess : Bool
  longStopThrew : Bool
  procThrew : Bool
  caughtError : Bool

/-- Handler result with no events recorded. -/
def noEventResult (st : ServerState) (db : DB) : HandlerResult :=
  { state := st
    db := db
    startedTrip := none
    coordInserted := false
    marks := []
    fires := []
    longStopInvoked := false
    loggedMissingCoords := false
    loggedInvalidLocTime := false
    calledProcess := false
    longStopThrew := false
    procThrew := false
    caughtError := false }

/-- Tail of the message handler: call `processVehicleData` and record its
outcome together with the long-stop events accumulated so far. -/
def runProcess (oracle : WriteOp → Bool) (dist : ℚ × ℚ → ℚ × ℚ → ℚ)
    (st : ServerState) (db : DB) (now : Millis) (msg : VehicleData)
    (lsInvoked : Bool) (accMarks : List (String × String))
    (accFires : List String) : HandlerResult :=
  let p := processVehicleData oracle dist db msg now
  { state := st
    db := p.db
    startedTrip := p.startedTrip
    coordInserted := p.coordInserted
    marks := accMarks ++ p.marks
    fires := accFires ++ p.fires
    longStopInvoked := lsInvoked
    loggedMissingCoords := false
    loggedInvalidLocTime := false
    calledProcess := true
    longStopThrew := false
    procThrew := p.threw
    caughtError := p.threw }

/-- Stop tracking and processing for a sample whose `LocTime` parsed to `t`
(`ws.on('message')` from the `Speed === 0` test onward).  For a zero-speed
sample with no interval, an interval is opened; with an interval, its
`lastLocTime` is updated and, when the dwell `(t - stopStart)` reaches five
minutes (300000 ms) with `processed` unset, `handleLongStop` is awaited and
then `processed` is set — unless the handler threw, in which case the
exception skips the `processed` assignment and `processVehicleData`, and is
caught and logged by the outer catch.  A non-zero-speed sample deletes the
interval.  Then `processVehicleData` runs. -/
def trackAndProcess (oracle : WriteOp → Bool) (dist : ℚ × ℚ → ℚ × ℚ → ℚ)
    (st1 : ServerState) (db : DB) (now : Millis) (msg : VehicleData)
    (t : Millis) : HandlerResult :=
  if msg.speed == some 0 then
    match st1.vehicleStops msg.plate with
    | none =>
      let si : StopInfo :=
        { stopStart := t, location := (qget msg.latitude, qget msg.longitude),
          lastLocTime := t, processed := false }
      let st2 := { st1 with vehicleStops := mset st1.vehicleStops msg.plate si }
      runProcess oracle dist st2 db now msg false [] []
    | some si =>
      let stops2 := mset st1.vehicleStops msg.plate ({ si with lastLocTime := t })
      let st2 := { st1 with vehicleStops := stops2 }
      if 300000 ≤ t - si.stopStart ∧ si.processed = false then
        let ls := handleLongStop oracle dist db msg.plate si.location now
        if ls.threw then
          { noEventResult st2 ls.db with
            marks := ls.marks
            fires := ls.fires
            longStopInvoked := true
            longStopThrew := true
            caughtError := true }
        else
          let stops3 := mset stops2 msg.plate
            ({ si with lastLocTime := t, processed := true })
          let st3 := { st2 with vehicleStops := stops3 }
          runProcess oracle dist st3 ls.db now msg true ls.marks ls.fires
      else
        runProcess oracle dist st2 db now msg false [] []
  else
    let st2 := { st1 with vehicleStops := mdel st1.vehicleStops msg.plate }
    runProcess oracle dist st2 db now msg false [] []

/-- Source `ws.on('message')`: cache the record under its plate; log and
return when a coordinate is falsy; return silently when `LocTime` is falsy;
log and return when it fails to parse; otherwise track stops and process. -/
def handleMessage (oracle : WriteOp → Bool) (dist : ℚ × ℚ → ℚ × ℚ → ℚ)
    (st : ServerState) (db : DB) (now : Millis) (msg : VehicleData) :
    HandlerResult :=
  let st1 := { st with vehicleDataCache := mset st.vehicleDataCache msg.plate msg }
  if numFalsy msg.latitude || numFalsy msg.longitude then
    { noEventResult st1 db with loggedMissingCoords := true }
  else
    match msg.locTime with
    | none => noEventResult st1 db
    | some none => { noEventResult st1 db with loggedInvalidLocTime := true }
    | some (some t) => trackAndProcess oracle dist st1 db now msg t

/-- Run the message handler over a stream of (wall-clock, record) pairs,
returning the per-message results and the final state and store. -/
def runHandler (oracle : WriteOp → Bool) (dist : ℚ × ℚ → ℚ × ℚ → ℚ) :
    ServerState → DB → List (Millis × VehicleData) →
    List HandlerResult × ServerState × DB
  | st, db, [] => ([], st, db)
  | st, db, (now, msg) :: rest =>
    let r := handleMessage oracle dist st db now msg
    let o := runHandler oracle dist r.state r.db rest
    (r :: o.1, o.2)

/-- Startup reconciliation (`ws.on('open')`): register every trip that has
`actual_start_time` set and `actual_end_time` unset. -/
def resumeActiveTrips (st : ServerState) (db : DB) : ServerState :=
  (db.route_plans.filter fun t =>
    decide (t.actual_start_time ≠ none ∧ t.actual_end_time = none)).foldl
    (fun s t => startTripMonitoring s t.trip_id t.vehicle_plate) st

/-- Subscription callback for `route_plans` INSERT events. -/
def onTripCreated (st : ServerState) (tripId plate : String) : ServerState :=
  startTripMonitoring st tripId plate

/-- Subscription callback for `route_plans` UPDATE events that newly set
`actual_end_time`. -/
def onTripEnded (st : ServerState) (tripId : String) : ServerState :=
  stopTripMonitoring st tripId

/-- From `src/check-after-3pm.js`: the running `minDistance` over the
logged coordinates, starting at `Infinity` (modelled by `⊤` in
`WithTop ℚ`), taking the turf distance from each logged vehicle point
`[lng, lat]` to the customer point. -/
def minDistanceTo (dist : ℚ × ℚ → ℚ × ℚ → ℚ) (coords : List CoordRow)
    (cust : ℚ × ℚ) : WithTop ℚ :=
  coords.foldl
    (fun m r =>
      let d : WithTop ℚ := ((dist (r.lng, r.lat) cust : ℚ) : WithTop ℚ)
      if d < m then d else m) ⊤

/-- From `src/check-after-3pm.js`: a remaining customer "WOULD COMPLETE"
when the closest logged position is within 5 km (`minDistance <= 5`). -/
def wouldComplete (dist : ℚ × ℚ → ℚ × ℚ → ℚ) (coords : List CoordRow)
    (cust : ℚ × ℚ) : Bool :=
  decide (minDistanceTo dist coords cust ≤ (5 : WithTop ℚ))

noncomputable section

/-- Model of `@turf/distance` with `units: 'kilometers'`: the haversine
great-circle distance on a sphere of radius 6371.0088 km (turf's
`earthRadius` 6371008.8 m divided by 1000).  Turf returns
`2 * atan2(sqrt a, sqrt (1 - a))` scaled by the radius; for `a ∈ [0, 1]`
that angle equals `arcsin (sqrt a)`, which is the form used here.
Arguments follow turf's `[lng, lat]` point order. -/
def turfDistanceKm (lng1 lat1 lng2 lat2 : ℝ) : ℝ :=
  let dLat := (lat2 - lat1) * Real.pi / 180
  let dLon := (lng2 - lng1) * Real.pi / 180
  let lat1r := lat1 * Real.pi / 180
  let lat2r := lat2 * Real.pi / 180
  let a := Real.sin (dLat / 2) ^ 2 +
    Real.sin (dLon / 2) ^ 2 * Real.cos lat1r * Real.cos lat2r
  2 * Real.arcsin (Real.sqrt a) * 6371.0088

/-- The live-path geofence test `distanceKm <= 1.0` (lines 108 and 183 of
the server source) applied to the turf distance model. -/
def withinLiveRadius (vlng vlat clng clat : ℝ) : Prop :=
  turfDistanceKm vlng vlat clng clat ≤ 1

end

/-! ## Concrete objects used by witnesses and counterexamples -/

/-- Server state with empty registry, cache and stop tracker. -/
def emptyState : ServerState := ⟨fun _ => none, fun _ => none, fun _ => none⟩

/-- Empty store. -/
def emptyDB : DB := ⟨[], [], []⟩

/-- Default row used with `List.getD` style lookups. -/
def dtrip : Trip :=
  { trip_id := "", vehicle_plate := "", actual_start_time := none,
    actual_end_time := none }

/-- Placeholder distance function for scenarios whose geofence loop is empty
or irrelevant. -/
def dist0 : ℚ × ℚ → ℚ × ℚ → ℚ := fun _ _ => 0

def tripA : String := "trip-A"

def tripB : String := "trip-B"

def plateP : String := "BH47JSGP"

/-- The started, unended trip row used by concrete scenarios. -/
def tripRowStarted : Trip :=
  { trip_id := tripA
    vehicle_plate := plateP
    actual_start_time := some 0
    actual_end_time := none }

/-- A store holding one started, unended trip for `plateP` and no customers. -/
def dbStarted : DB :=
  { route_plans := [tripRowStarted]
    assigned_customers := []
    trip_coordinates := [] }

/-- A zero-speed sample for `plateP` with valid coordinates and no
`LocTime` field. -/
def msgNoLoc : VehicleData :=
  { plate := plateP
    speed := some 0
    latitude := some (-26)
    longitude := some 28
    locTime := none }

/-- A zero-speed sample for `plateP` with valid coordinates and
`LocTime` parsing to 0. -/
def msgStop : VehicleData :=
  { plate := plateP
    speed := some 0
    latitude := some (-26)
    longitude := some 28
    locTime := some (some 0) }

/-- A moving sample for `plateP` with valid coordinates and `LocTime`
parsing to 1000. -/
def msgMove : VehicleData :=
  { plate := plateP
    speed := some 50
    latitude := some (-26)
    longitude := some 28
    locTime := some (some 1000) }

/-- A zero-speed sample for `plateP` at a fixed position whose `LocTime`
parses to `t`. -/
def mkStopMsg (t : Millis) : VehicleData :=
  { plate := plateP
    speed := some 0
    latitude := some (-26)
    longitude := some 28
    locTime := some (some t) }

/-- The spec's example stream: six zero-speed samples at t = 0s, 60s, ...,
300s (location times in milliseconds), paired with arrival wall-clocks. -/
def msgs6 : List (Millis × VehicleData) :=
  [(0, mkStopMsg 0), (1, mkStopMsg 60000), (2, mkStopMsg 120000),
    (3, mkStopMsg 180000), (4, mkStopMsg 240000), (5, mkStopMsg 300000)]

/-- Default record for `List.getD` lookups over message lists. -/
def dmsg : VehicleData := ⟨"", none, none, none, none⟩

/-- Default record for `List.getD` lookups over handler-result lists. -/
def dres : HandlerResult := noEventResult emptyState emptyDB

/-- A PLANNED trip row (start and end unset) for `plateP`. -/
def tripRowPlanned : Trip :=
  { trip_id := tripA
    vehicle_plate := plateP
    actual_start_time := none
    actual_end_time := none }

/-- A store holding only the PLANNED trip for `plateP`. -/
def dbPlanned : DB :=
  { route_plans := [tripRowPlanned]
    assigned_customers := []
    trip_coordinates := [] }

/-- A stream for the trip-start scenario: a zero-speed sample, then two
moving samples. -/
def msgsC2 : List (Millis × VehicleData) :=
  [(100, mkStopMsg 0), (200, msgMove), (300, msgMove)]

/-- An oracle that fails every coordinate-log insert and lets every other
write succeed. -/
def oracleFail : WriteOp → Bool
  | WriteOp.insertCoord _ => false
  | _ => true

/-! ## Basic lemmas about the store and writes -/

theorem doWrite_allOk (db : DB) (w : WriteOp) :
    doWrite allOk db w = Except.ok (db.applyWrite w) := rfl

/-- Every write leaves the customer table's row identities in place: no row
is added or removed, and each row keeps its `trip_id`. -/
theorem applyWrite_customers_trip_id (db : DB) (w : WriteOp) :
    ∀ c ∈ (db.applyWrite w).assigned_customers,
      ∃ c0 ∈ db.assigned_customers, c.trip_id = c0.trip_id := by
  intro c hc
  cases w with
  | markCompleted tid code t =>
    simp only [DB.applyWrite, List.mem_map] at hc
    obtain ⟨c0, hc0, rfl⟩ := hc
    refine ⟨c0, hc0, ?_⟩
    split <;> rfl
  | setStart tid t => exact ⟨c, hc, rfl⟩
  | insertCoord row => exact ⟨c, hc, rfl⟩
  | completeTrip tid t => exact ⟨c, hc, rfl⟩

/-- A trip with no customer rows still has none after any write. -/
theorem applyWrite_customersAll_nil (db : DB) (w : WriteOp) (T : String)
    (h : db.customersAll T = []) : (db.applyWrite w).customersAll T = [] := by
  rw [DB.customersAll, List.filter_eq_nil_iff] at h ⊢
  intro c hc
  obtain ⟨c0, hc0, heq⟩ := applyWrite_customers_trip_id db w c hc
  have := h c0 hc0
  simp only [decide_eq_true_eq] at this ⊢
  rw [heq]; exact this

/-- Relation between stores asserting that every `route_plans` row kept its
position and `trip_id` and, for rows of trip `T`, its `actual_end_time`. -/
def noCompleteFor (db db' : DB) (T : String) : Prop :=
  db'.route_plans.length = db.route_plans.length ∧
  ∀ (i : ℕ) (t t' : Trip), db.route_plans[i]? = some t → db'.route_plans[i]? = some t' →
    t'.trip_id = t.trip_id ∧ (t.trip_id = T → t'.actual_end_time = t.actual_end_time)

theorem noCompleteFor_of_plans_eq {db db' : DB} (T : String)
    (h : db'.route_plans = db.route_plans) : noCompleteFor db db' T := by
  refine ⟨by rw [h], ?_⟩
  intro i t t' h1 h2
  rw [h, h1] at h2
  cases h2
  exact ⟨rfl, fun _ => rfl⟩

theorem noCompleteFor_refl (db : DB) (T : String) : noCompleteFor db db T :=
  noCompleteFor_of_plans_eq T rfl

theorem noCompleteFor_trans {db1 db2 db3 : DB} {T : String}
    (h12 : noCompleteFor db1 db2 T) (h23 : noCompleteFor db2 db3 T) :
    noCompleteFor db1 db3 T := by
  obtain ⟨hl12, hp12⟩ := h12
  obtain ⟨hl23, hp23⟩ := h23
  refine ⟨hl23.trans hl12, ?_⟩
  intro i t t' h1 h3
  have hi1 : i < db1.route_plans.length := (List.getElem?_eq_some.mp h1).1
  have hi2 : i < db2.route_plans.length := by rw [hl12]; exact hi1
  have h2 : db2.route_plans[i]? = some db2.route_plans[i] :=
    List.getElem?_eq_getElem hi2
  obtain ⟨e1, e2⟩ := hp12 i t _ h1 h2
  obtain ⟨f1, f2⟩ := hp23 i _ t' h2 h3
  refine ⟨f1.trans e1, fun hT => ?_⟩
  exact (f2 (e1.trans hT)).trans (e2 hT)

theorem applyWrite_noCompleteFor (db : DB) (T : String) (w : WriteOp)
    (hw : ∀ t0, w ≠ WriteOp.completeTrip T t0) :
    noCompleteFor db (db.applyWrite w) T := by
  cases w with
  | setStart tid t =>
    refine ⟨by simp [DB.applyWrite], ?_⟩
    intro i t1 t2 h1 h2
    simp only [DB.applyWrite, List.getElem?_map, h1, Option.map_some'] at h2
    cases h2
    split <;> exact ⟨rfl, fun _ => rfl⟩
  | insertCoord row => exact noCompleteFor_of_plans_eq T rfl
  | markCompleted tid code t => exact noCompleteFor_of_plans_eq T rfl
  | completeTrip tid t =>
    have htid : tid ≠ T := by
      intro hEq
      exact hw t (by rw [hEq])
    refine ⟨by simp [DB.applyWrite], ?_⟩
    intro i t1 t2 h1 h2
    simp only [DB.applyWrite, List.getElem?_map, h1, Option.map_some'] at h2
    cases h2
    split
    next hc => exact ⟨rfl, fun hT => absurd (hc.symm ▸ hT : tid = T) htid⟩
    next hc => exact ⟨rfl, fun _ => rfl⟩

theorem doWrite_eq_ok (oracle : WriteOp → Bool) (db : DB) (w : WriteOp)
    (h : oracle w = true) : doWrite oracle db w = Except.ok (db.applyWrite w) := by
  simp [doWrite, h]

theorem doWrite_eq_error (oracle : WriteOp → Bool) (db : DB) (w : WriteOp)
    (h : oracle w = false) : doWrite oracle db w = Except.error () := by
  simp [doWrite, h]

/-- For a trip `T` with no customer rows, `checkTripCompletion` (for any
trip) never completes `T` and never creates customer rows for it. -/
theorem checkTripCompletion_c10 (oracle : WriteOp → Bool) (db : DB)
    (tid T : String) (now : Millis) (h : db.customersAll T = []) :
    ∀ db2 f, checkTripCompletion oracle db tid now = Except.ok (db2, f) →
      noCompleteFor db db2 T ∧ db2.customersAll T = [] := by
  intro db2 f hr
  simp only [checkTripCompletion] at hr
  by_cases hlen : (db.customersAll tid).length > 0
  · rw [if_pos hlen] at hr
    by_cases hall : ((db.customersAll tid).all fun c => c.completed) = true
    · rw [if_pos hall] at hr
      have htid : tid ≠ T := by
        intro hEq
        rw [hEq, h] at hlen
        simp at hlen
      by_cases ho : oracle (WriteOp.completeTrip tid now) = true
      · rw [doWrite_eq_ok oracle db _ ho] at hr
        cases hr
        refine ⟨applyWrite_noCompleteFor db T _ ?_,
          applyWrite_customersAll_nil db _ T h⟩
        intro t0 hEq
        cases hEq
        exact htid rfl
      · rw [doWrite_eq_error oracle db _ (by simpa using ho)] at hr
        cases hr
    · rw [if_neg hall] at hr
      cases hr
      exact ⟨noCompleteFor_refl _ _, h⟩
  · rw [if_neg hlen] at hr
    cases hr
    exact ⟨noCompleteFor_refl _ _, h⟩

theorem telemetryLoop_c10 (oracle : WriteOp → Bool) (dist : ℚ × ℚ → ℚ × ℚ → ℚ)
    (vp : ℚ × ℚ) (tid T : String) (now : Millis) :
    ∀ (cs : List Customer) (db : DB), db.customersAll T = [] →
      noCompleteFor db (telemetryLoop oracle dist vp tid now db cs).db T ∧
      (telemetryLoop oracle dist vp tid now db cs).db.customersAll T = []
  | [], db, h => by
    simp only [telemetryLoop]
    exact ⟨noCompleteFor_refl db T, h⟩
  | c :: rest, db, h => by
    simp only [telemetryLoop]
    by_cases hd : dist vp (c.lng, c.lat) ≤ 1
    · simp only [if_pos hd]
      by_cases ho : oracle (WriteOp.markCompleted tid c.customer_code now) = true
      · simp only [doWrite_eq_ok _ _ _ ho]
        have h2 := applyWrite_customersAll_nil db
          (WriteOp.markCompleted tid c.customer_code now) T h
        have n2 := applyWrite_noCompleteFor db T
          (WriteOp.markCompleted tid c.customer_code now)
          (fun t0 hEq => WriteOp.noConfusion hEq)
        cases hc : checkTripCompletion oracle
            (db.applyWrite (WriteOp.markCompleted tid c.customer_code now)) tid now with
        | error e =>
          simp only [hc]
          exact ⟨n2, h2⟩
        | ok p =>
          obtain ⟨db3, fired⟩ := p
          obtain ⟨n3, h3⟩ := checkTripCompletion_c10 oracle _ tid T now h2 db3 fired hc
          obtain ⟨n4, h4⟩ := telemetryLoop_c10 oracle dist vp tid T now rest db3 h3
          simp only [hc]
          exact ⟨noCompleteFor_trans (noCompleteFor_trans n2 n3) n4, h4⟩
      · simp only [doWrite_eq_error _ _ _ (by simpa using ho)]
        exact ⟨noCompleteFor_refl db T, h⟩
    · simp only [if_neg hd]
      exact telemetryLoop_c10 oracle dist vp tid T now rest db h

theorem longStopLoop_c10 (oracle : WriteOp → Bool) (dist : ℚ × ℚ → ℚ × ℚ → ℚ)
    (vp : ℚ × ℚ) (tid T : String) (now : Millis) :
    ∀ (cs : List Customer) (db : DB), db.customersAll T = [] →
      noCompleteFor db (longStopLoop oracle dist vp tid now db cs).db T ∧
      (longStopLoop oracle dist vp tid now db cs).db.customersAll T = []
  | [], db, h => by
    simp only [longStopLoop]
    exact ⟨noCompleteFor_refl db T, h⟩
  | c :: rest, db, h => by
    simp only [longStopLoop]
    by_cases hd : dist vp (c.lng, c.lat) ≤ 1
    · simp only [if_pos hd]
      by_cases ho : oracle (WriteOp.markCompleted tid c.customer_code now) = true
      · simp only [doWrite_eq_ok _ _ _ ho]
        have h2 := applyWrite_customersAll_nil db
          (WriteOp.markCompleted tid c.customer_code now) T h
        have n2 := applyWrite_noCompleteFor db T
          (WriteOp.markCompleted tid c.customer_code now)
          (fun t0 hEq => WriteOp.noConfusion hEq)
        obtain ⟨n3, h3⟩ := longStopLoop_c10 oracle dist vp tid T now rest _ h2
        exact ⟨noCompleteFor_trans n2 n3, h3⟩
      · simp only [doWrite_eq_error _ _ _ (by simpa using ho)]
        exact ⟨noCompleteFor_refl db T, h⟩
    · simp only [if_neg hd]
      exact longStopLoop_c10 oracle dist vp tid T now rest db h

theorem handleLongStop_c10 (oracle : WriteOp → Bool) (dist : ℚ × ℚ → ℚ × ℚ → ℚ)
    (db : DB) (plate : String) (loc : ℚ × ℚ) (now : Millis) (T : String)
    (h : db.customersAll T = []) :
    noCompleteFor db (handleLongStop oracle dist db plate loc now).db T ∧
    (handleLongStop oracle dist db plate loc now).db.customersAll T = [] := by
  rw [handleLongStop]
  cases hq : db.startedOpenTrips plate with
  | nil => exact ⟨noCompleteFor_refl db T, h⟩
  | cons t rest =>
    simp only
    obtain ⟨n2, h2⟩ := longStopLoop_c10 oracle dist (loc.2, loc.1) t.trip_id T now
      (db.customersIncomplete t.trip_id) db h
    by_cases hth : (longStopLoop oracle dist (loc.2, loc.1) t.trip_id now db
        (db.customersIncomplete t.trip_id)).threw = true
    · simp only [if_pos hth]
      exact ⟨n2, h2⟩
    · simp only [if_neg hth]
      cases hc : checkTripCompletion oracle
          (longStopLoop oracle dist (loc.2, loc.1) t.trip_id now db
            (db.customersIncomplete t.trip_id)).db t.trip_id now with
      | error e =>
        simp only [hc]
        exact ⟨n2, h2⟩
      | ok p =>
        obtain ⟨db3, fired⟩ := p
        obtain ⟨n3, h3⟩ := checkTripCompletion_c10 oracle _ t.trip_id T now h2 db3 fired hc
        simp only [hc]
        exact ⟨noCompleteFor_trans n2 n3, h3⟩

theorem pvdAfterStart_c10 (oracle : WriteOp → Bool) (dist : ℚ × ℚ → ℚ × ℚ → ℚ)
    (db : DB) (msg : VehicleData) (now : Millis) (tid : String)
    (actualStart : Option Millis) (started : Option String) (T : String)
    (h : db.customersAll T = []) :
    noCompleteFor db (pvdAfterStart oracle dist db msg now tid actualStart started).db T ∧
    (pvdAfterStart oracle dist db msg now tid actualStart started).db.customersAll T = [] := by
  rw [pvdAfterStart]
  by_cases hs : actualStart = none
  · simp only [if_pos hs]
    exact ⟨noCompleteFor_refl db T, h⟩
  · simp only [if_neg hs]
    by_cases ho : oracle (WriteOp.insertCoord ⟨tid, msg.plate, qget msg.latitude,
        qget msg.longitude, qget msg.speed, now⟩) = true
    · simp only [doWrite_eq_ok _ _ _ ho]
      have h2 := applyWrite_customersAll_nil db (WriteOp.insertCoord
        ⟨tid, msg.plate, qget msg.latitude, qget msg.longitude, qget msg.speed, now⟩) T h
      have n2 := applyWrite_noCompleteFor db T (WriteOp.insertCoord
        ⟨tid, msg.plate, qget msg.latitude, qget msg.longitude, qget msg.speed, now⟩)
        (fun t0 hEq => WriteOp.noConfusion hEq)
      obtain ⟨n3, h3⟩ := telemetryLoop_c10 oracle dist
        (qget msg.longitude, qget msg.latitude) tid T now
        ((db.applyWrite (WriteOp.insertCoord ⟨tid, msg.plate, qget msg.latitude,
          qget msg.longitude, qget msg.speed, now⟩)).customersIncomplete tid) _ h2
      exact ⟨noCompleteFor_trans n2 n3, h3⟩
    · simp only [doWrite_eq_error _ _ _ (by simpa using ho)]
      exact ⟨noCompleteFor_refl db T, h⟩

theorem processVehicleData_c10 (oracle : WriteOp → Bool) (dist : ℚ × ℚ → ℚ × ℚ → ℚ)
    (db : DB) (msg : VehicleData) (now : Millis) (T : String)
    (h : db.customersAll T = []) :
    noCompleteFor db (processVehicleData oracle dist db msg now).db T ∧
    (processVehicleData oracle dist db msg now).db.customersAll T = [] := by
  rw [processVehicleData]
  by_cases hv : (msg.plate.isEmpty || numFalsy msg.latitude || numFalsy msg.longitude) = true
  · simp only [if_pos hv]
    exact ⟨noCompleteFor_refl db T, h⟩
  · simp only [if_neg hv]
    cases hq : db.openTrips msg.plate with
    | nil => exact ⟨noCompleteFor_refl db T, h⟩
    | cons t rest =>
      simp only
      by_cases hstart : t.actual_start_time = none ∧ spGt0 msg.speed = true
      · simp only [if_pos hstart]
        by_cases ho : oracle (WriteOp.setStart t.trip_id now) = true
        · simp only [doWrite_eq_ok _ _ _ ho]
          have h2 := applyWrite_customersAll_nil db (WriteOp.setStart t.trip_id now) T h
          have n2 := applyWrite_noCompleteFor db T (WriteOp.setStart t.trip_id now)
            (fun t0 hEq => WriteOp.noConfusion hEq)
          obtain ⟨n3, h3⟩ := pvdAfterStart_c10 oracle dist _ msg now t.trip_id
            (some now) (some t.trip_id) T h2
          exact ⟨noCompleteFor_trans n2 n3, h3⟩
        · simp only [doWrite_eq_error _ _ _ (by simpa using ho)]
          exact ⟨noCompleteFor_refl db T, h⟩
      · simp only [if_neg hstart]
        exact pvdAfterStart_c10 oracle dist db msg now t.trip_id
          t.actual_start_time none T h

theorem handleMessage_c10 (oracle : WriteOp → Bool) (dist : ℚ × ℚ → ℚ × ℚ → ℚ)
    (st : ServerState) (db : DB) (now : Millis) (msg : VehicleData) (T : String)
    (h : db.customersAll T = []) :
    noCompleteFor db (handleMessage oracle dist st db now msg).db T ∧
    (handleMessage oracle dist st db now msg).db.customersAll T = [] := by
  rw [handleMessage]
  by_cases hv : (numFalsy msg.latitude || numFalsy msg.longitude) = true
  · simp only [if_pos hv, noEventResult]
    exact ⟨noCompleteFor_refl db T, h⟩
  · simp only [if_neg hv]
    cases msg.locTime with
    | none =>
      simp only [noEventResult]
      exact ⟨noCompleteFor_refl db T, h⟩
    | some o =>
      cases o with
      | none =>
        simp only [noEventResult]
        exact ⟨noCompleteFor_refl db T, h⟩
      | some t =>
        simp only [trackAndProcess]
        by_cases hsp : (msg.speed == some 0) = true
        · simp only [if_pos hsp]
          cases hstop : st.vehicleStops msg.plate with
          | none =>
            simp only [hstop, runProcess]
            exact processVehicleData_c10 oracle dist db msg now T h
          | some si =>
            simp only [hstop]
            by_cases hfire : 300000 ≤ t - si.stopStart ∧ si.processed = false
            · simp only [if_pos hfire]
              obtain ⟨n2, h2⟩ := handleLongStop_c10 oracle dist db msg.plate
                si.location now T h
              by_cases hth : (handleLongStop oracle dist db msg.plate si.location now).threw = true
              · simp only [if_pos hth, noEventResult]
                exact ⟨n2, h2⟩
              · simp only [if_neg hth, runProcess]
                obtain ⟨n3, h3⟩ := processVehicleData_c10 oracle dist
                  (handleLongStop oracle dist db msg.plate si.location now).db msg now T h2
                exact ⟨noCompleteFor_trans n2 n3, h3⟩
            · simp only [if_neg hfire, runProcess]
              exact processVehicleData_c10 oracle dist db msg now T h
        · simp only [if_neg hsp, runProcess]
          exact processVehicleData_c10 oracle dist db msg now T h

theorem runHandler_c10 (oracle : WriteOp → Bool) (dist : ℚ × ℚ → ℚ × ℚ → ℚ)
    (T : String) :
    ∀ (msgs : List (Millis × VehicleData)) (st : ServerState) (db : DB),
      db.customersAll T = [] →
      noCompleteFor db (runHandler oracle dist st db msgs).2.2 T ∧
      (runHandler oracle dist st db msgs).2.2.customersAll T = []
  | [], st, db, h => by
    simp only [runHandler]
    exact ⟨noCompleteFor_refl db T, h⟩
  | (now, msg) :: rest, st, db, h => by
    simp only [runHandler]
    obtain ⟨n2, h2⟩ := handleMessage_c10 oracle dist st db now msg T h
    obtain ⟨n3, h3⟩ := runHandler_c10 oracle dist T rest
      (handleMessage oracle dist st db now msg).state
      (handleMessage oracle dist st db now msg).db h2
    exact ⟨noCompleteFor_trans n2 n3, h3⟩

/-! ## Claim theorems -/

/-- C10: a trip with zero associated customer stops is never transitioned to
COMPLETED by the trip-completion check: with an empty customer list,
`checkTripCompletion` performs no external completion call and leaves the
store untouched; the `complete_trip` RPC fires only when at least one
customer row exists and every one has `completed = true`; and over any run
of the ingestion loop, the `actual_end_time` of every row of such a trip is
left unchanged, so the trip stays ACTIVE indefinitely. -/
theorem c10_zero_stop_trip_stays_active :
    (∀ (oracle : WriteOp → Bool) (db : DB) (tid : String) (now : Millis),
      db.customersAll tid = [] →
      checkTripCompletion oracle db tid now = Except.ok (db, false)) ∧
    (∀ (oracle : WriteOp → Bool) (db db2 : DB) (tid : String) (now : Millis),
      checkTripCompletion oracle db tid now = Except.ok (db2, true) →
      db.customersAll tid ≠ [] ∧
        ((db.customersAll tid).all fun c => c.completed) = true) ∧
    (∀ (oracle : WriteOp → Bool) (dist : ℚ × ℚ → ℚ × ℚ → ℚ) (st : ServerState)
      (db : DB) (msgs : List (Millis × VehicleData)) (T : String),
      db.customersAll T = [] →
      noCompleteFor db (runHandler oracle dist st db msgs).2.2 T) := by
  refine ⟨?_, ?_, ?_⟩
  · intro oracle db tid now h
    simp [checkTripCompletion, h]
  · intro oracle db db2 tid now hr
    simp only [checkTripCompletion] at hr
    by_cases hlen : (db.customersAll tid).length > 0
    · rw [if_pos hlen] at hr
      by_cases hall : ((db.customersAll tid).all fun c => c.completed) = true
      · refine ⟨?_, hall⟩
        intro hnil
        rw [hnil] at hlen
        simp at hlen
      · rw [if_neg hall] at hr
        cases hr
    · rw [if_neg hlen] at hr
      cases hr
  · intro oracle dist st db msgs T h
    exact (runHandler_c10 oracle dist T msgs st db h).1

/-- Witness for C10 at a concrete zero-customer trip: the hypothesis holds
and the completion check does nothing, and a run over a moving sample
leaves the trip's end time untouched. -/
theorem c10_witness :
    dbStarted.customersAll tripA = [] ∧
    checkTripCompletion allOk dbStarted tripA 0 = Except.ok (dbStarted, false) ∧
    noCompleteFor dbStarted
      (runHandler allOk dist0 emptyState dbStarted [(1000, msgMove)]).2.2 tripA :=
  ⟨by decide,
    c10_zero_stop_trip_stays_active.1 allOk dbStarted tripA 0 (by decide),
    c10_zero_stop_trip_stays_active.2.2 allOk dist0 emptyState dbStarted
      [(1000, msgMove)] tripA (by decide)⟩

/-- C5 counterexample: the registry is keyed by trip id, not by vehicle
plate.  Starting from an empty registry, a trip-created notification for
`tripA` with plate `plateP` followed by one for a different trip `tripB`
with the same plate leaves BOTH registered: the second notification is not
ignored, and two monitored trips coexist for one plate, refuting the
claimed at-most-one-trip-per-plate invariant. -/
theorem c5_counterexample :
    tripA ≠ tripB ∧
    (startTripMonitoring (startTripMonitoring emptyState tripA plateP) tripB
      plateP).activeTrips tripA = some plateP ∧
    (startTripMonitoring (startTripMonitoring emptyState tripA plateP) tripB
      plateP).activeTrips tripB = some plateP := by
  refine ⟨by decide, by decide, by decide⟩

/-- C5 (amended): the registry keeps at most one entry per TRIP ID: a
trip-created notification for a trip id that is already registered is
ignored, even when it carries a different plate (no silent overwrite), and
a trip-ended notification removes the trip id's entry. -/
theorem c5_registry_keyed_by_trip_id :
    (∀ (st : ServerState) (t p p2 : String),
      startTripMonitoring (startTripMonitoring st t p) t p2 =
        startTripMonitoring st t p) ∧
    (∀ (st : ServerState) (t : String),
      (stopTripMonitoring st t).activeTrips t = none) := by
  constructor
  · intro st t p p2
    unfold startTripMonitoring
    cases h : st.activeTrips t with
    | some v => simp [h]
    | none => simp [h, mset]
  · intro st t
    unfold stopTripMonitoring
    cases h : st.activeTrips t with
    | some v => simp [mdel]
    | none => simp [h]

/-- C4 counterexample: a record with valid coordinates but a missing
`LocTime`, for a vehicle whose trip is started and unended (so the
coordinate insert would certainly run if processing continued).  The
handler reports no validation error at all (the `!LocTime` branch returns
silently) and does NOT forward the sample to telemetry storage:
`processVehicleData` is never reached, refuting the claimed
"still forwarded" (and, for the missing-field case, "error reported")
behaviour. -/
theorem c4_counterexample :
    (handleMessage allOk dist0 emptyState dbStarted 1000 msgNoLoc).loggedInvalidLocTime = false ∧
    (handleMessage allOk dist0 emptyState dbStarted 1000 msgNoLoc).loggedMissingCoords = false ∧
    (handleMessage allOk dist0 emptyState dbStarted 1000 msgNoLoc).calledProcess = false ∧
    (handleMessage allOk dist0 emptyState dbStarted 1000 msgNoLoc).coordInserted = false ∧
    (handleMessage allOk dist0 emptyState dbStarted 1000 msgNoLoc).db = dbStarted := by
  refine ⟨by decide, by decide, by decide, by decide, by decide⟩

/-- C4 (amended): a record whose `LocTime` is missing or fails to parse is
excluded from stop-interval tracking (the interval map is untouched and the
long-stop handler is not invoked), a validation error is reported only in
the unparsable case (a missing `LocTime` is skipped silently), and the
sample is NOT forwarded to telemetry storage: message processing stops
before `processVehicleData`, so no coordinate row is written and the store
is unchanged (only the latest-sample cache retains the record). -/
theorem c4_invalid_loctime_drops_sample (oracle : WriteOp → Bool)
    (dist : ℚ × ℚ → ℚ × ℚ → ℚ) (st : ServerState) (db : DB) (now : Millis)
    (msg : VehicleData) (h : msg.locTime = none ∨ msg.locTime = some none) :
    (handleMessage oracle dist st db now msg).state.vehicleStops = st.vehicleStops ∧
    (handleMessage oracle dist st db now msg).longStopInvoked = false ∧
    (handleMessage oracle dist st db now msg).calledProcess = false ∧
    (handleMessage oracle dist st db now msg).coordInserted = false ∧
    (handleMessage oracle dist st db now msg).db = db ∧
    ((handleMessage oracle dist st db now msg).loggedInvalidLocTime = true ↔
      msg.locTime = some none ∧
        (numFalsy msg.latitude || numFalsy msg.longitude) = false) := by
  rw [handleMessage]
  by_cases hv : (numFalsy msg.latitude || numFalsy msg.longitude) = true
  · simp only [if_pos hv, noEventResult]
    refine ⟨by trivial, by trivial, by trivial, by trivial, by trivial, ?_⟩
    simp [hv]
  · have hv2 : (numFalsy msg.latitude || numFalsy msg.longitude) = false := by
      simpa using hv
    simp only [if_neg hv]
    rcases h with h | h
    · simp only [h, noEventResult]
      refine ⟨by trivial, by trivial, by trivial, by trivial, by trivial, ?_⟩
      simp [h]
    · simp only [h, noEventResult]
      refine ⟨by trivial, by trivial, by trivial, by trivial, by trivial, ?_⟩
      simp [h, hv2]

/-- Witness for C4 at the concrete missing-`LocTime` record. -/
theorem c4_witness :
    (msgNoLoc.locTime = none ∨ msgNoLoc.locTime = some none) ∧
    ((handleMessage allOk dist0 emptyState dbStarted 1000 msgNoLoc).state.vehicleStops =
        emptyState.vehicleStops ∧
      (handleMessage allOk dist0 emptyState dbStarted 1000 msgNoLoc).longStopInvoked = false ∧
      (handleMessage allOk dist0 emptyState dbStarted 1000 msgNoLoc).calledProcess = false ∧
      (handleMessage allOk dist0 emptyState dbStarted 1000 msgNoLoc).coordInserted = false ∧
      (handleMessage allOk dist0 emptyState dbStarted 1000 msgNoLoc).db = dbStarted ∧
      ((handleMessage allOk dist0 emptyState dbStarted 1000 msgNoLoc).loggedInvalidLocTime = true ↔
        msgNoLoc.locTime = some none ∧
          (numFalsy msgNoLoc.latitude || numFalsy msgNoLoc.longitude) = false)) :=
  ⟨Or.inl rfl,
    c4_invalid_loctime_drops_sample allOk dist0 emptyState dbStarted 1000 msgNoLoc
      (Or.inl rfl)⟩

theorem startedOpenTrips_nil (db : DB) (p : String)
    (h : db.openTrips p = []) : db.startedOpenTrips p = [] := by
  rw [DB.openTrips, List.filter_eq_nil_iff] at h
  rw [DB.startedOpenTrips, List.filter_eq_nil_iff]
  intro t ht
  have h2 := h t ht
  simp only [decide_eq_true_eq] at h2 ⊢
  tauto

theorem processVehicleData_noTrip (oracle : WriteOp → Bool)
    (dist : ℚ × ℚ → ℚ × ℚ → ℚ) (db : DB) (msg : VehicleData) (now : Millis)
    (h : db.openTrips msg.plate = []) :
    processVehicleData oracle dist db msg now = ⟨db, none, false, [], [], false⟩ := by
  rw [processVehicleData]
  by_cases hv : (msg.plate.isEmpty || numFalsy msg.latitude || numFalsy msg.longitude) = true
  · simp only [if_pos hv]
  · simp only [if_neg hv, h]

theorem handleLongStop_noTrip (oracle : WriteOp → Bool)
    (dist : ℚ × ℚ → ℚ × ℚ → ℚ) (db : DB) (plate : String) (loc : ℚ × ℚ)
    (now : Millis) (h : db.startedOpenTrips plate = []) :
    handleLongStop oracle dist db plate loc now = ⟨db, [], [], false⟩ := by
  rw [handleLongStop]
  simp only [h]

/-- C6 (amended): for a telemetry sample whose vehicle has no trip with
`actual_end_time` unset, the handler performs no geofence evaluation: no
customer stop is marked, no trip-completion side effect fires, no
coordinate row is stored, no trip start is written, and the store is left
unchanged.  (Stop-interval tracking, however, still runs for such a
vehicle — see the counterexample — because it precedes the trip lookup.) -/
theorem c6_unmonitored_vehicle_no_geofence (oracle : WriteOp → Bool)
    (dist : ℚ × ℚ → ℚ × ℚ → ℚ) (st : ServerState) (db : DB) (now : Millis)
    (msg : VehicleData) (h : db.openTrips msg.plate = []) :
    (handleMessage oracle dist st db now msg).marks = [] ∧
    (handleMessage oracle dist st db now msg).fires = [] ∧
    (handleMessage oracle dist st db now msg).coordInserted = false ∧
    (handleMessage oracle dist st db now msg).startedTrip = none ∧
    (handleMessage oracle dist st db now msg).db = db := by
  have hlsn := startedOpenTrips_nil db msg.plate h
  rw [handleMessage]
  by_cases hv : (numFalsy msg.latitude || numFalsy msg.longitude) = true
  · simp only [if_pos hv, noEventResult]
    exact ⟨by trivial, by trivial, by trivial, by trivial, by trivial⟩
  · simp only [if_neg hv]
    cases hlt : msg.locTime with
    | none =>
      simp only [noEventResult]
      exact ⟨by trivial, by trivial, by trivial, by trivial, by trivial⟩
    | some o =>
      cases o with
      | none =>
        simp only [noEventResult]
        exact ⟨by trivial, by trivial, by trivial, by trivial, by trivial⟩
      | some t =>
        simp only [trackAndProcess]
        by_cases hsp : (msg.speed == some 0) = true
        · simp only [if_pos hsp]
          cases hstop : st.vehicleStops msg.plate with
          | none =>
            simp only [runProcess, processVehicleData_noTrip oracle dist db msg now h]
            exact ⟨by trivial, by trivial, by trivial, by trivial, by trivial⟩
          | some si =>
            by_cases hfire : 300000 ≤ t - si.stopStart ∧ si.processed = false
            · simp only [if_pos hfire,
                handleLongStop_noTrip oracle dist db msg.plate si.location now hlsn]
              simp only [runProcess, processVehicleData_noTrip oracle dist db msg now h]
              exact ⟨by trivial, by trivial, by trivial, by trivial, by trivial⟩
            · simp only [if_neg hfire, runProcess,
                processVehicleData_noTrip oracle dist db msg now h]
              exact ⟨by trivial, by trivial, by trivial, by trivial, by trivial⟩
        · simp only [if_neg hsp, runProcess,
            processVehicleData_noTrip oracle dist db msg now h]
          exact ⟨by trivial, by trivial, by trivial, by trivial, by trivial⟩

/-- C6 counterexample: a zero-speed sample with valid coordinates and
timestamp for a plate with NO trip at all still opens a stop interval —
stop-interval tracking runs before the trip lookup, refuting the claim
that no interval is created or updated for unmonitored vehicles. -/
theorem c6_counterexample :
    emptyDB.openTrips plateP = [] ∧
    (handleMessage allOk dist0 emptyState emptyDB 0 msgStop).state.vehicleStops plateP =
      some (StopInfo.mk 0 (-26, 28) 0 false) := by
  refine ⟨by decide, by decide⟩

/-- Witness for C6 at a concrete unmonitored zero-speed sample. -/
theorem c6_witness :
    emptyDB.openTrips msgStop.plate = [] ∧
    ((handleMessage allOk dist0 emptyState emptyDB 0 msgStop).marks = [] ∧
      (handleMessage allOk dist0 emptyState emptyDB 0 msgStop).fires = [] ∧
      (handleMessage allOk dist0 emptyState emptyDB 0 msgStop).coordInserted = false ∧
      (handleMessage allOk dist0 emptyState emptyDB 0 msgStop).startedTrip = none ∧
      (handleMessage allOk dist0 emptyState emptyDB 0 msgStop).db = emptyDB) :=
  ⟨by decide,
    c6_unmonitored_vehicle_no_geofence allOk dist0 emptyState emptyDB 0 msgStop
      (by decide)⟩

theorem checkTripCompletion_allOk_ok (db : DB) (tid : String) (now : Millis) :
    ∃ db2 f, checkTripCompletion allOk db tid now = Except.ok (db2, f) := by
  rw [checkTripCompletion]
  by_cases h1 : (db.customersAll tid).length > 0
  · rw [if_pos h1]
    by_cases h2 : ((db.customersAll tid).all fun c => c.completed) = true
    · rw [if_pos h2, doWrite_allOk]
      exact ⟨_, _, rfl⟩
    · rw [if_neg h2]
      exact ⟨_, _, rfl⟩
  · rw [if_neg h1]
    exact ⟨_, _, rfl⟩

theorem telemetryLoop_allOk_marks (dist : ℚ × ℚ → ℚ × ℚ → ℚ) (vp : ℚ × ℚ)
    (tid : String) (now : Millis) :
    ∀ (cs : List Customer) (db : DB),
      (telemetryLoop allOk dist vp tid now db cs).marks =
        (cs.filter fun c => decide (dist vp (c.lng, c.lat) ≤ 1)).map
          fun c => (tid, c.customer_code)
  | [], db => by simp [telemetryLoop]
  | c :: rest, db => by
    simp only [telemetryLoop]
    by_cases hd : dist vp (c.lng, c.lat) ≤ 1
    · simp only [if_pos hd, doWrite_allOk]
      obtain ⟨db2, f, hc⟩ := checkTripCompletion_allOk_ok
        (db.applyWrite (WriteOp.markCompleted tid c.customer_code now)) tid now
      simp only [hc]
      rw [telemetryLoop_allOk_marks dist vp tid now rest db2]
      simp [List.filter_cons, hd]
    · simp only [if_neg hd]
      rw [telemetryLoop_allOk_marks dist vp tid now rest db]
      simp [List.filter_cons, hd]

theorem longStopLoop_allOk_marks (dist : ℚ × ℚ → ℚ × ℚ → ℚ) (vp : ℚ × ℚ)
    (tid : String) (now : Millis) :
    ∀ (cs : List Customer) (db : DB),
      (longStopLoop allOk dist vp tid now db cs).marks =
        (cs.filter fun c => decide (dist vp (c.lng, c.lat) ≤ 1)).map
          fun c => (tid, c.customer_code)
  | [], db => by simp [longStopLoop]
  | c :: rest, db => by
    simp only [longStopLoop]
    by_cases hd : dist vp (c.lng, c.lat) ≤ 1
    · simp only [if_pos hd, doWrite_allOk]
      rw [longStopLoop_allOk_marks dist vp tid now rest
        (db.applyWrite (WriteOp.markCompleted tid c.customer_code now))]
      simp [List.filter_cons, hd]
    · simp only [if_neg hd]
      rw [longStopLoop_allOk_marks dist vp tid now rest db]
      simp [List.filter_cons, hd]

theorem minDistanceTo_foldl_le_iff (dist : ℚ × ℚ → ℚ × ℚ → ℚ) (cust : ℚ × ℚ)
    (x : WithTop ℚ) :
    ∀ (coords : List CoordRow) (m : WithTop ℚ),
      (coords.foldl
        (fun m r =>
          let d : WithTop ℚ := ((dist (r.lng, r.lat) cust : ℚ) : WithTop ℚ)
          if d < m then d else m) m ≤ x ↔
        m ≤ x ∨ ∃ r ∈ coords, ((dist (r.lng, r.lat) cust : ℚ) : WithTop ℚ) ≤ x)
  | [], m => by simp
  | r0 :: rest, m => by
    rw [List.foldl_cons, minDistanceTo_foldl_le_iff dist cust x rest]
    constructor
    · rintro (hstep | hex)
      · by_cases hlt : ((dist (r0.lng, r0.lat) cust : ℚ) : WithTop ℚ) < m
        · rw [if_pos hlt] at hstep
          exact Or.inr ⟨r0, List.mem_cons_self r0 rest, hstep⟩
        · rw [if_neg hlt] at hstep
          exact Or.inl hstep
      · obtain ⟨r, hr, hle⟩ := hex
        exact Or.inr ⟨r, List.mem_cons_of_mem r0 hr, hle⟩
    · rintro (hm | ⟨r, hr, hle⟩)
      · by_cases hlt : ((dist (r0.lng, r0.lat) cust : ℚ) : WithTop ℚ) < m
        · rw [if_pos hlt]
          exact Or.inl ((le_of_lt hlt).trans hm)
        · rw [if_neg hlt]
          exact Or.inl hm
      · rcases List.mem_cons.mp hr with hr0 | hrest
        · subst hr0
          by_cases hlt : ((dist (r.lng, r.lat) cust : ℚ) : WithTop ℚ) < m
          · rw [if_pos hlt]
            exact Or.inl hle
          · rw [if_neg hlt]
            exact Or.inl ((not_lt.mp hlt).trans hle)
        · exact Or.inr ⟨r, hrest, hle⟩

/-- C8: every live-monitoring geofence completion — the per-telemetry-sample
loop and the long-stop loop — marks a fetched stop completed exactly when
its distance from the vehicle position is at most 1.0 km, while the
offline/backfill script over historical coordinate logs would complete a
stop exactly when its minimum distance over the logged positions is at most
5 km. -/
theorem c8_live_radius_one_km_backfill_five_km :
    (∀ (dist : ℚ × ℚ → ℚ × ℚ → ℚ) (vp : ℚ × ℚ) (tid : String) (now : Millis)
      (cs : List Customer) (db : DB),
      (telemetryLoop allOk dist vp tid now db cs).marks =
        (cs.filter fun c => decide (dist vp (c.lng, c.lat) ≤ 1)).map
          fun c => (tid, c.customer_code)) ∧
    (∀ (dist : ℚ × ℚ → ℚ × ℚ → ℚ) (vp : ℚ × ℚ) (tid : String) (now : Millis)
      (cs : List Customer) (db : DB),
      (longStopLoop allOk dist vp tid now db cs).marks =
        (cs.filter fun c => decide (dist vp (c.lng, c.lat) ≤ 1)).map
          fun c => (tid, c.customer_code)) ∧
    (∀ (dist : ℚ × ℚ → ℚ × ℚ → ℚ) (coords : List CoordRow) (cust : ℚ × ℚ),
      wouldComplete dist coords cust = true ↔
        ∃ r ∈ coords, dist (r.lng, r.lat) cust ≤ 5) := by
  refine ⟨?_, ?_, ?_⟩
  · intro dist vp tid now cs db
    exact telemetryLoop_allOk_marks dist vp tid now cs db
  · intro dist vp tid now cs db
    exact longStopLoop_allOk_marks dist vp tid now cs db
  · intro dist coords cust
    rw [wouldComplete, decide_eq_true_eq, minDistanceTo,
      minDistanceTo_foldl_le_iff dist cust (5 : WithTop ℚ) coords ⊤]
    have h5 : (5 : WithTop ℚ) = ((5 : ℚ) : WithTop ℚ) := by norm_cast
    constructor
    · rintro (htop | ⟨r, hr, hle⟩)
      · simp at htop
      · refine ⟨r, hr, ?_⟩
        rw [h5] at hle
        exact WithTop.coe_le_coe.mp hle
    · rintro ⟨r, hr, hle⟩
      refine Or.inr ⟨r, hr, ?_⟩
      rw [h5]
      exact WithTop.coe_le_coe.mpr hle

theorem telemetryLoop_allOk_threw (dist : ℚ × ℚ → ℚ × ℚ → ℚ) (vp : ℚ × ℚ)
    (tid : String) (now : Millis) :
    ∀ (cs : List Customer) (db : DB),
      (telemetryLoop allOk dist vp tid now db cs).threw = false
  | [], db => by simp [telemetryLoop]
  | c :: rest, db => by
    simp only [telemetryLoop]
    by_cases hd : dist vp (c.lng, c.lat) ≤ 1
    · simp only [if_pos hd, doWrite_allOk]
      obtain ⟨db2, f, hc⟩ := checkTripCompletion_allOk_ok
        (db.applyWrite (WriteOp.markCompleted tid c.customer_code now)) tid now
      simp only [hc]
      exact telemetryLoop_allOk_threw dist vp tid now rest db2
    · simp only [if_neg hd]
      exact telemetryLoop_allOk_threw dist vp tid now rest db

theorem longStopLoop_allOk_threw (dist : ℚ × ℚ → ℚ × ℚ → ℚ) (vp : ℚ × ℚ)
    (tid : String) (now : Millis) :
    ∀ (cs : List Customer) (db : DB),
      (longStopLoop allOk dist vp tid now db cs).threw = false
  | [], db => by simp [longStopLoop]
  | c :: rest, db => by
    simp only [longStopLoop]
    by_cases hd : dist vp (c.lng, c.lat) ≤ 1
    · simp only [if_pos hd, doWrite_allOk]
      exact longStopLoop_allOk_threw dist vp tid now rest _
    · simp only [if_neg hd]
      exact longStopLoop_allOk_threw dist vp tid now rest db

theorem handleLongStop_allOk_threw (dist : ℚ × ℚ → ℚ × ℚ → ℚ) (db : DB)
    (plate : String) (loc : ℚ × ℚ) (now : Millis) :
    (handleLongStop allOk dist db plate loc now).threw = false := by
  rw [handleLongStop]
  cases hq : db.startedOpenTrips plate with
  | nil => rfl
  | cons t rest =>
    simp only [longStopLoop_allOk_threw dist (loc.2, loc.1) t.trip_id now
      (db.customersIncomplete t.trip_id) db]
    obtain ⟨db2, f, hc⟩ := checkTripCompletion_allOk_ok
      (longStopLoop allOk dist (loc.2, loc.1) t.trip_id now db
        (db.customersIncomplete t.trip_id)).db t.trip_id now
    simp [hc]

theorem processVehicleData_allOk_threw (dist : ℚ × ℚ → ℚ × ℚ → ℚ) (db : DB)
    (msg : VehicleData) (now : Millis) :
    (processVehicleData allOk dist db msg now).threw = false := by
  rw [processVehicleData]
  by_cases hv : (msg.plate.isEmpty || numFalsy msg.latitude || numFalsy msg.longitude) = true
  · simp only [if_pos hv]
  · simp only [if_neg hv]
    cases hq : db.openTrips msg.plate with
    | nil => rfl
    | cons t rest =>
      have hafter : ∀ (db1 : DB) (s : Option Millis) (st0 : Option String),
          (pvdAfterStart allOk dist db1 msg now t.trip_id s st0).threw = false := by
        intro db1 s st0
        rw [pvdAfterStart]
        by_cases hs : s = none
        · simp only [if_pos hs]
        · simp only [if_neg hs, doWrite_allOk]
          exact telemetryLoop_allOk_threw dist (qget msg.longitude, qget msg.latitude)
            t.trip_id now _ _
      simp only
      by_cases hstart : t.actual_start_time = none ∧ spGt0 msg.speed = true
      · simp only [if_pos hstart, doWrite_allOk]
        exact hafter _ (some now) (some t.trip_id)
      · simp only [if_neg hstart]
        exact hafter db t.actual_start_time none

/-- The predicate on inbound records used by the stop-detector claims: a
record for plate `p` with `Speed === 0`, truthy coordinates, and a
parsable `LocTime`. -/
def zeroSpeedValid (p : String) (m : VehicleData) : Prop :=
  m.plate = p ∧ m.speed = some 0 ∧ numFalsy m.latitude = false ∧
    numFalsy m.longitude = false ∧ ∃ t, m.locTime = some (some t)

instance (p : String) (m : VehicleData) : Decidable (zeroSpeedValid p m) := by
  unfold zeroSpeedValid
  have : Decidable (∃ t, m.locTime = some (some t)) := by
    cases h : m.locTime with
    | none => exact isFalse (by simp)
    | some o =>
      cases o with
      | none => exact isFalse (by simp)
      | some t => exact isTrue ⟨t, rfl⟩
  exact instDecidableAnd

/-- The parsed `LocTime` of a record known to have one. -/
def locT (m : VehicleData) : Millis :=
  match m.locTime with
  | some (some t) => t
  | _ => 0

/-- Fire flags of the dwell check along a list of stop timestamps,
starting from interval opening time `t0` and `processed` flag `pr`. -/
def fireSpec (t0 : Millis) (pr : Bool) : List Millis → List Bool
  | [] => []
  | t :: ts =>
    let f := !pr && decide (300000 ≤ t - t0)
    f :: fireSpec t0 (pr || f) ts

theorem handleMessage_step_interval (dist : ℚ × ℚ → ℚ × ℚ → ℚ)
    (st : ServerState) (db : DB) (now : Millis) (msg : VehicleData)
    (p : String) (si : StopInfo) (hz : zeroSpeedValid p msg)
    (hsi : st.vehicleStops p = some si) :
    (handleMessage allOk dist st db now msg).longStopInvoked =
      (!si.processed && decide (300000 ≤ locT msg - si.stopStart)) ∧
    (handleMessage allOk dist st db now msg).state.vehicleStops p =
      some ⟨si.stopStart, si.location, locT msg,
        si.processed || (!si.processed && decide (300000 ≤ locT msg - si.stopStart))⟩ := by
  obtain ⟨hp, hsp, hlat, hlng, t, hlt⟩ := hz
  subst hp
  have hT : locT msg = t := by rw [locT, hlt]
  rw [handleMessage]
  have hv : (numFalsy msg.latitude || numFalsy msg.longitude) = false := by
    rw [hlat, hlng]; rfl
  simp only [hv, Bool.false_eq_true, if_false, hlt]
  rw [trackAndProcess]
  have hb : (msg.speed == some 0) = true := by rw [hsp]; rfl
  simp only [if_pos hb, hsi, hT]
  by_cases hcond : 300000 ≤ t - si.stopStart ∧ si.processed = false
  · have hth := handleLongStop_allOk_threw dist db msg.plate si.location now
    rw [if_pos hcond]
    simp only [hth, Bool.false_eq_true, if_false, runProcess, mset, if_pos rfl,
      hcond.2, decide_eq_true hcond.1, Bool.not_false, Bool.true_and,
      Bool.false_or]
    exact ⟨by trivial, by trivial⟩
  · have hbf : (!si.processed && decide (300000 ≤ t - si.stopStart)) = false := by
      cases hp2 : si.processed with
      | true => simp
      | false =>
        have hnc : ¬(300000 ≤ t - si.stopStart) := fun hcc => hcond ⟨hcc, hp2⟩
        simp [hnc]
    simp only [if_neg hcond, runProcess, mset, if_pos rfl, hbf, Bool.or_false]
    exact ⟨by trivial, by trivial⟩

theorem handleMessage_step_open (dist : ℚ × ℚ → ℚ × ℚ → ℚ)
    (st : ServerState) (db : DB) (now : Millis) (msg : VehicleData)
    (p : String) (hz : zeroSpeedValid p msg)
    (hsi : st.vehicleStops p = none) :
    (handleMessage allOk dist st db now msg).longStopInvoked = false ∧
    (handleMessage allOk dist st db now msg).state.vehicleStops p =
      some ⟨locT msg, (qget msg.latitude, qget msg.longitude), locT msg, false⟩ := by
  obtain ⟨hp, hsp, hlat, hlng, t, hlt⟩ := hz
  subst hp
  have hT : locT msg = t := by rw [locT, hlt]
  rw [handleMessage]
  have hv : (numFalsy msg.latitude || numFalsy msg.longitude) = false := by
    rw [hlat, hlng]; rfl
  simp only [hv, Bool.false_eq_true, if_false, hlt]
  rw [trackAndProcess]
  have hb : (msg.speed == some 0) = true := by rw [hsp]; rfl
  simp only [if_pos hb, hsi, hT, runProcess, mset, if_pos rfl]
  exact ⟨by trivial, by trivial⟩

theorem runHandler_fireSpec (dist : ℚ × ℚ → ℚ × ℚ → ℚ) (p : String) :
    ∀ (msgs : List (Millis × VehicleData)) (st : ServerState) (db : DB)
      (si : StopInfo),
      (∀ m ∈ msgs, zeroSpeedValid p m.2) →
      st.vehicleStops p = some si →
      (runHandler allOk dist st db msgs).1.map (fun r => r.longStopInvoked) =
        fireSpec si.stopStart si.processed (msgs.map fun m => locT m.2)
  | [], st, db, si, hall, hsi => by simp [runHandler, fireSpec]
  | (now, msg) :: rest, st, db, si, hall, hsi => by
    have hz := hall (now, msg) (List.mem_cons_self _ _)
    obtain ⟨hinv, hstops⟩ := handleMessage_step_interval dist st db now msg p si hz hsi
    simp only [runHandler, List.map_cons, fireSpec, hinv]
    refine congrArg₂ (· :: ·) rfl ?_
    exact runHandler_fireSpec dist p rest _ _
      ⟨si.stopStart, si.location, locT msg,
        si.processed || (!si.processed && decide (300000 ≤ locT msg - si.stopStart))⟩
      (fun m hm => hall m (List.mem_cons_of_mem _ hm)) hstops

theorem fireSpec_true (t0 : Millis) :
    ∀ ts, fireSpec t0 true ts = List.replicate ts.length false
  | [] => rfl
  | t :: ts => by
    simp [fireSpec, fireSpec_true t0 ts, List.replicate_succ]

theorem fireSpec_count (t0 : Millis) :
    ∀ ts, (fireSpec t0 false ts).count true =
      (if ∃ t ∈ ts, 300000 ≤ t - t0 then 1 else 0)
  | [] => by simp [fireSpec]
  | t :: ts => by
    simp only [fireSpec, Bool.not_false, Bool.true_and, Bool.false_or]
    by_cases hc : 300000 ≤ t - t0
    · rw [decide_eq_true hc, fireSpec_true t0 ts]
      rw [if_pos ⟨t, List.mem_cons_self t ts, hc⟩]
      simp [List.count_cons, List.count_replicate]
    · rw [decide_eq_false hc]
      have hiff : (∃ u ∈ t :: ts, 300000 ≤ u - t0) ↔ ∃ u ∈ ts, 300000 ≤ u - t0 := by
        constructor
        · rintro ⟨u, hu, hcu⟩
          rcases List.mem_cons.mp hu with rfl | hu2
          · exact absurd hcu hc
          · exact ⟨u, hu2, hcu⟩
        · rintro ⟨u, hu, hcu⟩
          exact ⟨u, List.mem_cons_of_mem t hu, hcu⟩
      rw [if_congr hiff rfl rfl, ← fireSpec_count t0 ts]
      simp [List.count_cons]

theorem fireSpec_getD (t0 : Millis) :
    ∀ (ts : List Millis) (pr : Bool) (i : ℕ), i < ts.length →
      ((fireSpec t0 pr ts).getD i false = true ↔
        (pr = false ∧ 300000 ≤ ts.getD i 0 - t0 ∧
          ∀ j < i, ts.getD j 0 - t0 < 300000))
  | [], pr, i, hi => absurd hi (by simp)
  | t :: ts, pr, 0, hi => by
    simp only [fireSpec, List.getD_cons_zero, Bool.and_eq_true,
      Bool.not_eq_true', decide_eq_true_eq]
    constructor
    · rintro ⟨h1, h2⟩
      exact ⟨h1, h2, fun j hj => absurd hj (Nat.not_lt_zero j)⟩
    · rintro ⟨h1, h2, -⟩
      exact ⟨h1, h2⟩
  | t :: ts, pr, i + 1, hi => by
    simp only [fireSpec, List.getD_cons_succ]
    rw [fireSpec_getD t0 ts (pr || (!pr && decide (300000 ≤ t - t0))) i
      (by simpa using Nat.lt_of_succ_lt_succ hi)]
    have hor : (pr || (!pr && decide (300000 ≤ t - t0))) = false ↔
        (pr = false ∧ t - t0 < 300000) := by
      cases pr with
      | true => simp
      | false => simp [not_le]
    have hfa : (∀ j < i + 1, (t :: ts).getD j 0 - t0 < 300000) ↔
        (t - t0 < 300000 ∧ ∀ j < i, ts.getD j 0 - t0 < 300000) := by
      constructor
      · intro h
        refine ⟨by simpa using h 0 (Nat.succ_pos i), fun j hj => ?_⟩
        simpa using h (j + 1) (Nat.succ_lt_succ hj)
      · rintro ⟨h0, h⟩ j hj
        cases j with
        | zero => simpa using h0
        | succ k =>
          simpa using h k (Nat.lt_of_succ_lt_succ hj)
    rw [hor, hfa]
    tauto

theorem fireSpec_self_head (t0 : Millis) (ts : List Millis) :
    fireSpec t0 false (t0 :: ts) = false :: fireSpec t0 false ts := by
  simp [fireSpec]

/-- C1: for every sequence of zero-speed, valid samples for one plate whose
location times are in order and span at least five minutes, starting with
no open stop interval for the plate, the ingestion loop invokes the
long-stop handler exactly once, namely at the first sample whose dwell
(location time minus the interval's `stopStart`, the first sample's
location time) reaches five minutes (300000 ms), never earlier and never a
second time. -/
theorem c1_long_stop_fires_exactly_once (dist : ℚ × ℚ → ℚ × ℚ → ℚ)
    (st : ServerState) (db : DB) (p : String)
    (msgs : List (Millis × VehicleData)) (hne : msgs ≠ [])
    (hall : ∀ m ∈ msgs, zeroSpeedValid p m.2)
    (hmono : ∀ j < msgs.length, ∀ i ≤ j,
      (msgs.map fun m => locT m.2).getD i 0 ≤ (msgs.map fun m => locT m.2).getD j 0)
    (hspan : ∃ i < msgs.length,
      300000 ≤ (msgs.map fun m => locT m.2).getD i 0 -
        (msgs.map fun m => locT m.2).getD 0 0)
    (hstart : st.vehicleStops p = none) :
    (((runHandler allOk dist st db msgs).1.map fun r => r.longStopInvoked).count true = 1) ∧
    (∀ i < msgs.length,
      ((runHandler allOk dist st db msgs).1.map fun r => r.longStopInvoked).getD i false = true ↔
        (300000 ≤ (msgs.map fun m => locT m.2).getD i 0 -
            (msgs.map fun m => locT m.2).getD 0 0 ∧
          ∀ j < i, (msgs.map fun m => locT m.2).getD j 0 -
            (msgs.map fun m => locT m.2).getD 0 0 < 300000)) := by
  match msgs, hne with
  | (n0, m0) :: rest, _ =>
    have hz0 := hall (n0, m0) (List.mem_cons_self _ _)
    obtain ⟨hinv0, hstops0⟩ := handleMessage_step_open dist st db n0 m0 p hz0 hstart
    have htail := runHandler_fireSpec dist p rest
      (handleMessage allOk dist st db n0 m0).state
      (handleMessage allOk dist st db n0 m0).db
      ⟨locT m0, (qget m0.latitude, qget m0.longitude), locT m0, false⟩
      (fun m hm => hall m (List.mem_cons_of_mem _ hm)) hstops0
    have hflags : (runHandler allOk dist st db ((n0, m0) :: rest)).1.map
        (fun r => r.longStopInvoked) =
        fireSpec (locT m0) false ((((n0, m0) :: rest)).map fun m => locT m.2) := by
      simp only [runHandler, List.map_cons, hinv0, List.map_cons,
        fireSpec_self_head]
      exact congrArg₂ (· :: ·) rfl htail
    have ht0 : ((((n0, m0) :: rest)).map fun m => locT m.2).getD 0 0 = locT m0 := by
      simp
    constructor
    · rw [hflags, fireSpec_count]
      rw [if_pos ?_]
      obtain ⟨i, hi, hci⟩ := hspan
      rw [ht0] at hci
      refine ⟨(((n0, m0) :: rest).map fun m => locT m.2).getD i 0, ?_, hci⟩
      have hlen : i < (((n0, m0) :: rest).map fun m => locT m.2).length := by
        simpa using hi
      rw [List.getD_eq_getElem _ _ hlen]
      exact List.getElem_mem hlen
    · intro i hi
      have hlen : i < (((n0, m0) :: rest).map fun m => locT m.2).length := by
        simpa using hi
      rw [hflags, fireSpec_getD (locT m0) _ false i hlen, ht0]
      simp

/-- Witness for C1 at the spec's example stream (zero-speed samples at
t = 0, 60, ..., 300 seconds): the hypotheses hold, the handler fires
exactly once, and the per-sample fire flags are five falses followed by
one true (at the t = 300 s sample). -/
theorem c1_witness :
    (msgs6 ≠ [] ∧ (∀ m ∈ msgs6, zeroSpeedValid plateP m.2) ∧
      (∀ j < msgs6.length, ∀ i ≤ j,
        (msgs6.map fun m => locT m.2).getD i 0 ≤
          (msgs6.map fun m => locT m.2).getD j 0) ∧
      (∃ i < msgs6.length,
        300000 ≤ (msgs6.map fun m => locT m.2).getD i 0 -
          (msgs6.map fun m => locT m.2).getD 0 0) ∧
      emptyState.vehicleStops plateP = none) ∧
    (((runHandler allOk dist0 emptyState emptyDB msgs6).1.map
        fun r => r.longStopInvoked).count true = 1) ∧
    ((runHandler allOk dist0 emptyState emptyDB msgs6).1.map
        fun r => r.longStopInvoked) =
      [false, false, false, false, false, true] :=
  ⟨⟨by decide, by decide, by decide, by decide, rfl⟩,
    (c1_long_stop_fires_exactly_once dist0 emptyState emptyDB plateP msgs6
      (by decide) (by decide) (by decide) (by decide) rfl).1,
    by decide⟩

/-- Relation between stores asserting that every `route_plans` row kept its
position, identity and `actual_start_time`. -/
def startPreserved (db db' : DB) : Prop :=
  db'.route_plans.length = db.route_plans.length ∧
  ∀ (i : ℕ) (t t2 : Trip), db.route_plans[i]? = some t →
    db'.route_plans[i]? = some t2 →
    t2.trip_id = t.trip_id ∧ t2.vehicle_plate = t.vehicle_plate ∧
      t2.actual_start_time = t.actual_start_time

theorem startPreserved_of_plans_eq {db db' : DB}
    (h : db'.route_plans = db.route_plans) : startPreserved db db' := by
  refine ⟨by rw [h], ?_⟩
  intro i t t2 h1 h2
  rw [h, h1] at h2
  cases h2
  exact ⟨rfl, rfl, rfl⟩

theorem startPreserved_refl (db : DB) : startPreserved db db :=
  startPreserved_of_plans_eq rfl

theorem startPreserved_trans {db1 db2 db3 : DB}
    (h12 : startPreserved db1 db2) (h23 : startPreserved db2 db3) :
    startPreserved db1 db3 := by
  obtain ⟨hl12, hp12⟩ := h12
  obtain ⟨hl23, hp23⟩ := h23
  refine ⟨hl23.trans hl12, ?_⟩
  intro i t t2 h1 h3
  have hi1 : i < db1.route_plans.length := (List.getElem?_eq_some.mp h1).1
  have hi2 : i < db2.route_plans.length := by rw [hl12]; exact hi1
  have h2 : db2.route_plans[i]? = some db2.route_plans[i] :=
    List.getElem?_eq_getElem hi2
  obtain ⟨e1, e2, e3⟩ := hp12 i t _ h1 h2
  obtain ⟨f1, f2, f3⟩ := hp23 i _ t2 h2 h3
  exact ⟨f1.trans e1, f2.trans e2, f3.trans e3⟩

theorem applyWrite_startPreserved (db : DB) (w : WriteOp)
    (hw : ∀ tid t0, w ≠ WriteOp.setStart tid t0) :
    startPreserved db (db.applyWrite w) := by
  cases w with
  | setStart tid t => exact absurd rfl (hw tid t)
  | insertCoord row => exact startPreserved_of_plans_eq rfl
  | markCompleted tid code t => exact startPreserved_of_plans_eq rfl
  | completeTrip tid t =>
    refine ⟨by simp [DB.applyWrite], ?_⟩
    intro i t1 t2 h1 h2
    simp only [DB.applyWrite, List.getElem?_map, h1, Option.map_some'] at h2
    cases h2
    split <;> exact ⟨rfl, rfl, rfl⟩

theorem checkTripCompletion_startPreserved (oracle : WriteOp → Bool) (db : DB)
    (tid : String) (now : Millis) :
    ∀ db2 f, checkTripCompletion oracle db tid now = Except.ok (db2, f) →
      startPreserved db db2 := by
  intro db2 f hr
  simp only [checkTripCompletion] at hr
  by_cases hlen : (db.customersAll tid).length > 0
  · rw [if_pos hlen] at hr
    by_cases hall : ((db.customersAll tid).all fun c => c.completed) = true
    · rw [if_pos hall] at hr
      by_cases ho : oracle (WriteOp.completeTrip tid now) = true
      · rw [doWrite_eq_ok oracle db _ ho] at hr
        cases hr
        exact applyWrite_startPreserved db _ (fun tid2 t0 hEq => WriteOp.noConfusion hEq)
      · rw [doWrite_eq_error oracle db _ (by simpa using ho)] at hr
        cases hr
    · rw [if_neg hall] at hr
      cases hr
      exact startPreserved_refl db
  · rw [if_neg hlen] at hr
    cases hr
    exact startPreserved_refl db

theorem telemetryLoop_startPreserved (oracle : WriteOp → Bool)
    (dist : ℚ × ℚ → ℚ × ℚ → ℚ) (vp : ℚ × ℚ) (tid : String) (now : Millis) :
    ∀ (cs : List Customer) (db : DB),
      startPreserved db (telemetryLoop oracle dist vp tid now db cs).db
  | [], db => by
    simp only [telemetryLoop]
    exact startPreserved_refl db
  | c :: rest, db => by
    simp only [telemetryLoop]
    by_cases hd : dist vp (c.lng, c.lat) ≤ 1
    · simp only [if_pos hd]
      by_cases ho : oracle (WriteOp.markCompleted tid c.customer_code now) = true
      · simp only [doWrite_eq_ok _ _ _ ho]
        have n2 := applyWrite_startPreserved db
          (WriteOp.markCompleted tid c.customer_code now)
          (fun tid2 t0 hEq => WriteOp.noConfusion hEq)
        cases hc : checkTripCompletion oracle
            (db.applyWrite (WriteOp.markCompleted tid c.customer_code now)) tid now with
        | error e =>
          simp only [hc]
          exact n2
        | ok pr =>
          obtain ⟨db3, fired⟩ := pr
          have n3 := checkTripCompletion_startPreserved oracle _ tid now db3 fired hc
          have n4 := telemetryLoop_startPreserved oracle dist vp tid now rest db3
          simp only [hc]
          exact startPreserved_trans (startPreserved_trans n2 n3) n4
      · simp only [doWrite_eq_error _ _ _ (by simpa using ho)]
        exact startPreserved_refl db
    · simp only [if_neg hd]
      exact telemetryLoop_startPreserved oracle dist vp tid now rest db

theorem longStopLoop_startPreserved (oracle : WriteOp → Bool)
    (dist : ℚ × ℚ → ℚ × ℚ → ℚ) (vp : ℚ × ℚ) (tid : String) (now : Millis) :
    ∀ (cs : List Customer) (db : DB),
      startPreserved db (longStopLoop oracle dist vp tid now db cs).db
  | [], db => by
    simp only [longStopLoop]
    exact startPreserved_refl db
  | c :: rest, db => by
    simp only [longStopLoop]
    by_cases hd : dist vp (c.lng, c.lat) ≤ 1
    · simp only [if_pos hd]
      by_cases ho : oracle (WriteOp.markCompleted tid c.customer_code now) = true
      · simp only [doWrite_eq_ok _ _ _ ho]
        have n2 := applyWrite_startPreserved db
          (WriteOp.markCompleted tid c.customer_code now)
          (fun tid2 t0 hEq => WriteOp.noConfusion hEq)
        exact startPreserved_trans n2 (longStopLoop_startPreserved oracle dist vp tid now rest _)
      · simp only [doWrite_eq_error _ _ _ (by simpa using ho)]
        exact startPreserved_refl db
    · simp only [if_neg hd]
      exact longStopLoop_startPreserved oracle dist vp tid now rest db

theorem handleLongStop_startPreserved (oracle : WriteOp → Bool)
    (dist : ℚ × ℚ → ℚ × ℚ → ℚ) (db : DB) (plate : String) (loc : ℚ × ℚ)
    (now : Millis) :
    startPreserved db (handleLongStop oracle dist db plate loc now).db := by
  rw [handleLongStop]
  cases hq : db.startedOpenTrips plate with
  | nil => exact startPreserved_refl db
  | cons t rest =>
    simp only
    have n2 := longStopLoop_startPreserved oracle dist (loc.2, loc.1) t.trip_id now
      (db.customersIncomplete t.trip_id) db
    by_cases hth : (longStopLoop oracle dist (loc.2, loc.1) t.trip_id now db
        (db.customersIncomplete t.trip_id)).threw = true
    · simp only [if_pos hth]
      exact n2
    · simp only [if_neg hth]
      cases hc : checkTripCompletion oracle
          (longStopLoop oracle dist (loc.2, loc.1) t.trip_id now db
            (db.customersIncomplete t.trip_id)).db t.trip_id now with
      | error e =>
        simp only [hc]
        exact n2
      | ok pr =>
        obtain ⟨db3, fired⟩ := pr
        have n3 := checkTripCompletion_startPreserved oracle _ t.trip_id now db3 fired hc
        simp only [hc]
        exact startPreserved_trans n2 n3

theorem pvdAfterStart_startPreserved (oracle : WriteOp → Bool)
    (dist : ℚ × ℚ → ℚ × ℚ → ℚ) (db : DB) (msg : VehicleData) (now : Millis)
    (tid : String) (actualStart : Option Millis) (started : Option String) :
    startPreserved db (pvdAfterStart oracle dist db msg now tid actualStart started).db := by
  rw [pvdAfterStart]
  by_cases hs : actualStart = none
  · simp only [if_pos hs]
    exact startPreserved_refl db
  · simp only [if_neg hs]
    by_cases ho : oracle (WriteOp.insertCoord ⟨tid, msg.plate, qget msg.latitude,
        qget msg.longitude, qget msg.speed, now⟩) = true
    · simp only [doWrite_eq_ok _ _ _ ho]
      have n2 := applyWrite_startPreserved db (WriteOp.insertCoord
        ⟨tid, msg.plate, qget msg.latitude, qget msg.longitude, qget msg.speed, now⟩)
        (fun tid2 t0 hEq => WriteOp.noConfusion hEq)
      exact startPreserved_trans n2 (telemetryLoop_startPreserved oracle dist
        (qget msg.longitude, qget msg.latitude) tid now _ _)
    · simp only [doWrite_eq_error _ _ _ (by simpa using ho)]
      exact startPreserved_refl db

/-- The predicate on inbound records used by the trip-start claims: a
record for (truthy) plate `p` with truthy coordinates and parsable
`LocTime`; the speed is arbitrary. -/
def validMsg (p : String) (m : VehicleData) : Prop :=
  m.plate = p ∧ m.plate.isEmpty = false ∧ numFalsy m.latitude = false ∧
    numFalsy m.longitude = false ∧ ∃ t, m.locTime = some (some t)

instance (p : String) (m : VehicleData) : Decidable (validMsg p m) := by
  unfold validMsg
  have : Decidable (∃ t, m.locTime = some (some t)) := by
    cases h : m.locTime with
    | none => exact isFalse (by simp)
    | some o =>
      cases o with
      | none => exact isFalse (by simp)
      | some t => exact isTrue ⟨t, rfl⟩
  exact instDecidableAnd

theorem openTrips_singleton (db : DB) (tr : Trip) (p : String)
    (hdb : db.route_plans = [tr]) (hpl : tr.vehicle_plate = p) :
    db.openTrips p = if tr.actual_end_time = none then [tr] else [] := by
  rw [DB.openTrips, hdb]
  by_cases he : tr.actual_end_time = none
  · rw [if_pos he]
    simp [hpl, he]
  · rw [if_neg he]
    simp [hpl, he]

theorem startedOpenTrips_singleton_unstarted (db : DB) (tr : Trip) (p : String)
    (hdb : db.route_plans = [tr]) (hst : tr.actual_start_time = none) :
    db.startedOpenTrips p = [] := by
  rw [DB.startedOpenTrips, hdb]
  simp [hst]

theorem spGt0_beq_false (s : Option ℚ) (h : spGt0 s = true) :
    (s == some 0) = false := by
  cases s with
  | none => cases h
  | some q =>
    rw [spGt0] at h
    have hq : 0 < q := of_decide_eq_true h
    simp [hq.ne']

theorem pvdAfterStart_startedTrip (oracle : WriteOp → Bool)
    (dist : ℚ × ℚ → ℚ × ℚ → ℚ) (db : DB) (msg : VehicleData) (now : Millis)
    (tid : String) (s : Option Millis) (st0 : Option String) :
    (pvdAfterStart oracle dist db msg now tid s st0).startedTrip = st0 := by
  rw [pvdAfterStart]
  by_cases hs : s = none
  · simp only [if_pos hs]
  · simp only [if_neg hs]
    by_cases ho : oracle (WriteOp.insertCoord ⟨tid, msg.plate, qget msg.latitude,
        qget msg.longitude, qget msg.speed, now⟩) = true
    · simp only [doWrite_eq_ok _ _ _ ho]
    · simp only [doWrite_eq_error _ _ _ (by simpa using ho)]

theorem startPreserved_singleton {db db' : DB} {tr : Trip}
    (h : startPreserved db db') (hdb : db.route_plans = [tr]) :
    ∃ tr2, db'.route_plans = [tr2] ∧ tr2.trip_id = tr.trip_id ∧
      tr2.vehicle_plate = tr.vehicle_plate ∧
      tr2.actual_start_time = tr.actual_start_time := by
  obtain ⟨hl, hp⟩ := h
  rw [hdb] at hl hp
  simp only [List.length_singleton] at hl
  obtain ⟨tr2, h2⟩ := List.length_eq_one.mp hl
  obtain ⟨e1, e2, e3⟩ := hp 0 tr tr2 (by simp) (by simp [h2])
  exact ⟨tr2, h2, e1, e2, e3⟩

/-- `processVehicleData` on a one-trip store in state PLANNED with a moving
sample: persists the start, reports the transition, and keeps processing
(inserts the coordinate row) using the locally updated start time. -/
theorem processVehicleData_c2_start (dist : ℚ × ℚ → ℚ × ℚ → ℚ) (db : DB)
    (msg : VehicleData) (now : Millis) (tr : Trip)
    (hdb : db.route_plans = [tr]) (hplate : tr.vehicle_plate = msg.plate)
    (hpe : msg.plate.isEmpty = false) (hlat : numFalsy msg.latitude = false)
    (hlng : numFalsy msg.longitude = false)
    (hend : tr.actual_end_time = none) (hstart : tr.actual_start_time = none)
    (hsp : spGt0 msg.speed = true) :
    (processVehicleData allOk dist db msg now).startedTrip = some tr.trip_id ∧
    (processVehicleData allOk dist db msg now).coordInserted = true ∧
    ∃ tr2, (processVehicleData allOk dist db msg now).db.route_plans = [tr2] ∧
      tr2.trip_id = tr.trip_id ∧ tr2.vehicle_plate = msg.plate ∧
      tr2.actual_start_time = some now := by
  have hq : db.openTrips msg.plate = [tr] := by
    rw [openTrips_singleton db tr msg.plate hdb hplate, if_pos hend]
  rw [processVehicleData]
  have hv : (msg.plate.isEmpty || numFalsy msg.latitude || numFalsy msg.longitude) = false := by
    rw [hpe, hlat, hlng]; rfl
  simp only [hv, Bool.false_eq_true, if_false, hq]
  rw [if_pos ⟨hstart, hsp⟩]
  simp only [doWrite_allOk]
  have hdb1 : (db.applyWrite (WriteOp.setStart tr.trip_id now)).route_plans =
      [{ tr with actual_start_time := some now }] := by
    simp [DB.applyWrite, hdb]
  rw [pvdAfterStart]
  rw [if_neg (by simp : ¬(some now = (none : Option Millis)))]
  simp only [doWrite_allOk]
  have hdb2 : ((db.applyWrite (WriteOp.setStart tr.trip_id now)).applyWrite
      (WriteOp.insertCoord ⟨tr.trip_id, msg.plate, qget msg.latitude,
        qget msg.longitude, qget msg.speed, now⟩)).route_plans =
      [{ tr with actual_start_time := some now }] := by
    simpa [DB.applyWrite] using hdb1
  have hsp2 := telemetryLoop_startPreserved allOk dist
    (qget msg.longitude, qget msg.latitude) tr.trip_id now
    (((db.applyWrite (WriteOp.setStart tr.trip_id now)).applyWrite
      (WriteOp.insertCoord ⟨tr.trip_id, msg.plate, qget msg.latitude,
        qget msg.longitude, qget msg.speed, now⟩)).customersIncomplete tr.trip_id)
    ((db.applyWrite (WriteOp.setStart tr.trip_id now)).applyWrite
      (WriteOp.insertCoord ⟨tr.trip_id, msg.plate, qget msg.latitude,
        qget msg.longitude, qget msg.speed, now⟩))
  obtain ⟨tr2, h2, e1, e2, e3⟩ := startPreserved_singleton hsp2 hdb2
  exact ⟨by trivial, by trivial, tr2, h2, e1, e2.trans hplate, e3⟩

/-- `processVehicleData` on a one-trip store whose trip is PLANNED but the
sample is not moving (or the trip is already ended): a complete no-op. -/
theorem processVehicleData_c2_noop (dist : ℚ × ℚ → ℚ × ℚ → ℚ) (db : DB)
    (msg : VehicleData) (now : Millis) (tr : Trip)
    (hdb : db.route_plans = [tr]) (hplate : tr.vehicle_plate = msg.plate)
    (hstart : tr.actual_start_time = none)
    (hns : ¬(tr.actual_end_time = none ∧ spGt0 msg.speed = true)) :
    processVehicleData allOk dist db msg now = ⟨db, none, false, [], [], false⟩ := by
  rw [processVehicleData]
  by_cases hv : (msg.plate.isEmpty || numFalsy msg.latitude || numFalsy msg.longitude) = true
  · simp only [if_pos hv]
  · simp only [if_neg hv]
    rw [openTrips_singleton db tr msg.plate hdb hplate]
    by_cases he : tr.actual_end_time = none
    · rw [if_pos he]
      simp only
      rw [if_neg (by rintro ⟨-, hsp⟩; exact hns ⟨he, hsp⟩)]
      rw [pvdAfterStart, if_pos hstart]
    · rw [if_neg he]

/-- `processVehicleData` on a one-trip store whose trip has started: no
start transition is reported and the start time is preserved. -/
theorem processVehicleData_c2_active (dist : ℚ × ℚ → ℚ × ℚ → ℚ) (db : DB)
    (msg : VehicleData) (now : Millis) (tr : Trip) (s : Millis)
    (hdb : db.route_plans = [tr]) (hplate : tr.vehicle_plate = msg.plate)
    (hstart : tr.actual_start_time = some s) :
    (processVehicleData allOk dist db msg now).startedTrip = none ∧
    startPreserved db (processVehicleData allOk dist db msg now).db := by
  rw [processVehicleData]
  by_cases hv : (msg.plate.isEmpty || numFalsy msg.latitude || numFalsy msg.longitude) = true
  · simp only [if_pos hv]
    exact ⟨by trivial, startPreserved_refl db⟩
  · simp only [if_neg hv]
    rw [openTrips_singleton db tr msg.plate hdb hplate]
    by_cases he : tr.actual_end_time = none
    · rw [if_pos he]
      simp only
      rw [if_neg (by rintro ⟨h1, -⟩; rw [hstart] at h1; cases h1)]
      exact ⟨pvdAfterStart_startedTrip allOk dist db msg now tr.trip_id
          tr.actual_start_time none,
        pvdAfterStart_startPreserved allOk dist db msg now tr.trip_id
          tr.actual_start_time none⟩
    · rw [if_neg he]
      exact ⟨by trivial, startPreserved_refl db⟩

theorem handleMessage_move (dist : ℚ × ℚ → ℚ × ℚ → ℚ) (st : ServerState)
    (db : DB) (now : Millis) (msg : VehicleData) (t : Millis)
    (hlt : msg.locTime = some (some t))
    (hco : (numFalsy msg.latitude || numFalsy msg.longitude) = false)
    (hsp : (msg.speed == some 0) = false) :
    ∃ st2, handleMessage allOk dist st db now msg =
      runProcess allOk dist st2 db now msg false [] [] := by
  rw [handleMessage]
  simp only [hco, Bool.false_eq_true, if_false, hlt]
  rw [trackAndProcess]
  rw [if_neg (by rw [hsp]; exact Bool.false_ne_true)]
  exact ⟨_, rfl⟩

theorem handleMessage_stop (dist : ℚ × ℚ → ℚ × ℚ → ℚ) (st : ServerState)
    (db : DB) (now : Millis) (msg : VehicleData) (t : Millis)
    (hlt : msg.locTime = some (some t))
    (hco : (numFalsy msg.latitude || numFalsy msg.longitude) = false)
    (hsp : (msg.speed == some 0) = true) :
    ∃ st2 mid inv accM accF,
      (mid = db ∨ ∃ si, st.vehicleStops msg.plate = some si ∧
        mid = (handleLongStop allOk dist db msg.plate si.location now).db) ∧
      handleMessage allOk dist st db now msg =
        runProcess allOk dist st2 mid now msg inv accM accF := by
  rw [handleMessage]
  simp only [hco, Bool.false_eq_true, if_false, hlt]
  rw [trackAndProcess]
  rw [if_pos hsp]
  dsimp only
  cases hstop : st.vehicleStops msg.plate with
  | none => exact ⟨_, db, false, [], [], Or.inl rfl, rfl⟩
  | some si =>
    dsimp only
    by_cases hfire : 300000 ≤ t - si.stopStart ∧ si.processed = false
    · rw [if_pos hfire]
      have hth := handleLongStop_allOk_threw dist db msg.plate si.location now
      rw [if_neg (by rw [hth]; exact Bool.false_ne_true)]
      exact ⟨_, _, true, _, _, Or.inr ⟨si, rfl, rfl⟩, rfl⟩
    · rw [if_neg hfire]
      exact ⟨_, db, false, [], [], Or.inl rfl, rfl⟩

/-- One message against a one-trip store: the three phases of the
PLANNED -> ACTIVE transition.  A moving sample on a PLANNED open trip
starts it (exactly then is a start write issued) and processing continues
locally; any other sample on a PLANNED trip leaves the store untouched; a
sample on a started trip never reports a transition and never changes the
persisted start time. -/
theorem handleMessage_c2_step (dist : ℚ × ℚ → ℚ × ℚ → ℚ) (st : ServerState)
    (db : DB) (now : Millis) (msg : VehicleData) (tr : Trip) (p : String)
    (hdb : db.route_plans = [tr]) (hpl : tr.vehicle_plate = p)
    (hv : validMsg p msg) :
    ((tr.actual_end_time = none ∧ tr.actual_start_time = none ∧
        spGt0 msg.speed = true) →
      (handleMessage allOk dist st db now msg).startedTrip = some tr.trip_id ∧
      (handleMessage allOk dist st db now msg).coordInserted = true ∧
      ∃ tr2, (handleMessage allOk dist st db now msg).db.route_plans = [tr2] ∧
        tr2.trip_id = tr.trip_id ∧ tr2.vehicle_plate = p ∧
        tr2.actual_start_time = some now) ∧
    ((tr.actual_start_time = none ∧
        ¬(tr.actual_end_time = none ∧ spGt0 msg.speed = true)) →
      (handleMessage allOk dist st db now msg).db = db ∧
      (handleMessage allOk dist st db now msg).startedTrip = none) ∧
    (∀ s, tr.actual_start_time = some s →
      (handleMessage allOk dist st db now msg).startedTrip = none ∧
      ∃ tr2, (handleMessage allOk dist st db now msg).db.route_plans = [tr2] ∧
        tr2.trip_id = tr.trip_id ∧ tr2.vehicle_plate = p ∧
        tr2.actual_start_time = some s) := by
  obtain ⟨hp, hpe, hlat, hlng, t, hlt⟩ := hv
  have hco : (numFalsy msg.latitude || numFalsy msg.longitude) = false := by
    rw [hlat, hlng]; rfl
  have hplm : tr.vehicle_plate = msg.plate := by rw [hpl, hp]
  refine ⟨?_, ?_, ?_⟩
  · rintro ⟨hend, hstart, hsp⟩
    obtain ⟨st2, heq⟩ := handleMessage_move dist st db now msg t hlt hco
      (spGt0_beq_false msg.speed hsp)
    rw [heq]
    obtain ⟨e1, e2, tr2, h2, f1, f2, f3⟩ := processVehicleData_c2_start dist db msg
      now tr hdb hplm hpe hlat hlng hend hstart hsp
    exact ⟨e1, e2, tr2, h2, f1, by rw [f2, hp], f3⟩
  · rintro ⟨hstart, hns⟩
    have hnoop := processVehicleData_c2_noop dist db msg now tr hdb hplm hstart hns
    by_cases hsp : (msg.speed == some 0) = true
    · obtain ⟨st2, mid, inv, accM, accF, hmid, heq⟩ :=
        handleMessage_stop dist st db now msg t hlt hco hsp
      have hmid2 : mid = db := by
        rcases hmid with rfl | ⟨si, hsi, rfl⟩
        · rfl
        · rw [handleLongStop_noTrip allOk dist db msg.plate si.location now
            (startedOpenTrips_singleton_unstarted db tr msg.plate hdb hstart)]
      subst hmid2
      rw [heq, runProcess]
      simp only [hnoop]
      exact ⟨by trivial, by trivial⟩
    · obtain ⟨st2, heq⟩ := handleMessage_move dist st db now msg t hlt hco
        (by simpa using hsp)
      rw [heq, runProcess]
      simp only [hnoop]
      exact ⟨by trivial, by trivial⟩
  · intro s hstart
    have hmain : ∀ (mid : DB), startPreserved db mid →
        (processVehicleData allOk dist mid msg now).startedTrip = none ∧
        ∃ tr2, (processVehicleData allOk dist mid msg now).db.route_plans = [tr2] ∧
          tr2.trip_id = tr.trip_id ∧ tr2.vehicle_plate = p ∧
          tr2.actual_start_time = some s := by
      intro mid hsp2
      obtain ⟨trm, hm, e1, e2, e3⟩ := startPreserved_singleton hsp2 hdb
      have hstm : trm.actual_start_time = some s := by rw [e3, hstart]
      obtain ⟨g1, g2⟩ := processVehicleData_c2_active dist mid msg now trm s hm
        (by rw [e2, hplm]) hstm
      obtain ⟨tr2, h2, f1, f2, f3⟩ := startPreserved_singleton g2 hm
      refine ⟨g1, tr2, h2, f1.trans e1, by rw [f2, e2, hpl], ?_⟩
      rw [f3, hstm]
    by_cases hsp : (msg.speed == some 0) = true
    · obtain ⟨st2, mid, inv, accM, accF, hmid, heq⟩ :=
        handleMessage_stop dist st db now msg t hlt hco hsp
      have hmidp : startPreserved db mid := by
        rcases hmid with h | ⟨si, hsi, h⟩
        · rw [h]
          exact startPreserved_refl db
        · rw [h]
          exact handleLongStop_startPreserved allOk dist db msg.plate si.location now
      rw [heq, runProcess]
      exact hmain mid hmidp
    · obtain ⟨st2, heq⟩ := handleMessage_move dist st db now msg t hlt hco
        (by simpa using hsp)
      rw [heq, runProcess]
      exact hmain db (startPreserved_refl db)

theorem runHandler_c2_active (dist : ℚ × ℚ → ℚ × ℚ → ℚ) (p : String) :
    ∀ (msgs : List (Millis × VehicleData)) (st : ServerState) (db : DB)
      (tr : Trip) (s : Millis),
      db.route_plans = [tr] → tr.vehicle_plate = p →
      tr.actual_start_time = some s →
      (∀ m ∈ msgs, validMsg p m.2) →
      (∀ r ∈ (runHandler allOk dist st db msgs).1, r.startedTrip = none) ∧
      ∃ tr2, (runHandler allOk dist st db msgs).2.2.route_plans = [tr2] ∧
        tr2.trip_id = tr.trip_id ∧ tr2.vehicle_plate = p ∧
        tr2.actual_start_time = some s
  | [], st, db, tr, s, hdb, hpl, hst, hall => by
    simp only [runHandler]
    exact ⟨by simp, tr, hdb, rfl, hpl, hst⟩
  | (n0, m0) :: rest, st, db, tr, s, hdb, hpl, hst, hall => by
    have hv0 := hall (n0, m0) (List.mem_cons_self _ _)
    obtain ⟨-, -, hstep⟩ := handleMessage_c2_step dist st db n0 m0 tr p hdb hpl hv0
    obtain ⟨hnone, tr1, h1, e1, e2, e3⟩ := hstep s hst
    obtain ⟨hrest, tr2, h2, f1, f2, f3⟩ := runHandler_c2_active dist p rest
      (handleMessage allOk dist st db n0 m0).state
      (handleMessage allOk dist st db n0 m0).db tr1 s h1 e2 e3
      (fun m hm => hall m (List.mem_cons_of_mem _ hm))
    simp only [runHandler]
    constructor
    · intro r hr
      rcases List.mem_cons.mp hr with rfl | hr2
      · exact hnone
      · exact hrest r hr2
    · exact ⟨tr2, h2, f1.trans e1, f2, f3⟩

theorem getD_started_none (l : List HandlerResult) (k : ℕ)
    (h : ∀ r ∈ l, r.startedTrip = none) : (l.getD k dres).startedTrip = none := by
  by_cases hk : k < l.length
  · rw [List.getD_eq_getElem _ _ hk]
    exact h _ (List.getElem_mem hk)
  · rw [List.getD_eq_default _ _ (le_of_not_lt hk)]
    rfl

/-- C2: against a store holding exactly one trip for a plate, in state
PLANNED (start and end unset), and a stream of valid samples for that
plate: the PLANNED -> ACTIVE transition (the `actual_start_time` write) is
reported exactly at the first sample with `Speed > 0` and never at any
other sample (so at most once overall); the message that starts the trip
also continues processing with the locally updated start time (its
coordinate row is inserted in the same call, without re-reading the store);
and after the transition no later sample changes the persisted start time:
the final store's start equals the wall-clock of the starting message. -/
theorem c2_trip_starts_exactly_once (dist : ℚ × ℚ → ℚ × ℚ → ℚ) (p : String) :
    ∀ (msgs : List (Millis × VehicleData)) (st : ServerState) (db : DB)
      (tr : Trip),
      db.route_plans = [tr] → tr.vehicle_plate = p →
      tr.actual_start_time = none → tr.actual_end_time = none →
      (∀ m ∈ msgs, validMsg p m.2) →
      (∀ i < msgs.length,
        (((runHandler allOk dist st db msgs).1.getD i dres).startedTrip =
            some tr.trip_id ↔
          (spGt0 ((msgs.getD i (0, dmsg)).2.speed) = true ∧
            ∀ j < i, spGt0 ((msgs.getD j (0, dmsg)).2.speed) = false))) ∧
      (((runHandler allOk dist st db msgs).1.map fun r => r.startedTrip).count
        (some tr.trip_id) ≤ 1) ∧
      (∀ i < msgs.length,
        (((runHandler allOk dist st db msgs).1.getD i dres).startedTrip =
            some tr.trip_id) →
        (((runHandler allOk dist st db msgs).1.getD i dres).coordInserted = true ∧
          ∃ tr2, (runHandler allOk dist st db msgs).2.2.route_plans = [tr2] ∧
            tr2.trip_id = tr.trip_id ∧
            tr2.actual_start_time = some ((msgs.getD i (0, dmsg)).1)))
  | [], st, db, tr, hdb, hpl, hst, hend, hall => by
    simp only [runHandler]
    exact ⟨by simp, by simp, by simp⟩
  | (n0, m0) :: rest, st, db, tr, hdb, hpl, hst, hend, hall => by
    have hv0 := hall (n0, m0) (List.mem_cons_self _ _)
    have hstep := handleMessage_c2_step dist st db n0 m0 tr p hdb hpl hv0
    by_cases hsp0 : spGt0 m0.speed = true
    · obtain ⟨e1, e2, tr1, h1, f1, f2, f3⟩ := hstep.1 ⟨hend, hst, hsp0⟩
      obtain ⟨hrest, tr2, h2, g1, g2, g3⟩ := runHandler_c2_active dist p rest
        (handleMessage allOk dist st db n0 m0).state
        (handleMessage allOk dist st db n0 m0).db tr1 n0 h1 f2 f3
        (fun m hm => hall m (List.mem_cons_of_mem _ hm))
      simp only [runHandler]
      refine ⟨?_, ?_, ?_⟩
      · intro i hi
        cases i with
        | zero =>
          simp only [List.getD_cons_zero, e1]
          constructor
          · intro _
            exact ⟨hsp0, fun j hj => absurd hj (Nat.not_lt_zero j)⟩
          · intro _
            trivial
        | succ k =>
          simp only [List.getD_cons_succ]
          have hk := getD_started_none
            (runHandler allOk dist (handleMessage allOk dist st db n0 m0).state
              (handleMessage allOk dist st db n0 m0).db rest).1 k hrest
          rw [hk]
          constructor
          · intro hcontra
            cases hcontra
          · rintro ⟨-, hjall⟩
            have := hjall 0 (Nat.succ_pos k)
            simp only [List.getD_cons_zero] at this
            rw [hsp0] at this
            cases this
      · simp only [List.map_cons, List.count_cons, e1]
        have hzero : ((runHandler allOk dist (handleMessage allOk dist st db n0 m0).state
            (handleMessage allOk dist st db n0 m0).db rest).1.map
              fun r => r.startedTrip).count (some tr.trip_id) = 0 := by
          rw [List.count_eq_zero]
          intro hmem
          obtain ⟨r, hr, hr2⟩ := List.mem_map.mp hmem
          rw [hrest r hr] at hr2
          cases hr2
        rw [hzero]
        simp
      · intro i hi hstarted
        cases i with
        | zero =>
          simp only [List.getD_cons_zero] at hstarted ⊢
          exact ⟨e2, tr2, h2, g1.trans f1, g3⟩
        | succ k =>
          simp only [List.getD_cons_succ] at hstarted
          have hk := getD_started_none
            (runHandler allOk dist (handleMessage allOk dist st db n0 m0).state
              (handleMessage allOk dist st db n0 m0).db rest).1 k hrest
          rw [hk] at hstarted
          cases hstarted
    · obtain ⟨hdb0, hnone0⟩ := hstep.2.1 ⟨hst, fun hcc => hsp0 hcc.2⟩
      have hIH := c2_trip_starts_exactly_once dist p rest
        (handleMessage allOk dist st db n0 m0).state
        (handleMessage allOk dist st db n0 m0).db tr
        (by rw [hdb0]; exact hdb) hpl hst hend
        (fun m hm => hall m (List.mem_cons_of_mem _ hm))
      obtain ⟨i1, i2, i3⟩ := hIH
      simp only [runHandler]
      refine ⟨?_, ?_, ?_⟩
      · intro i hi
        cases i with
        | zero =>
          simp only [List.getD_cons_zero, hnone0]
          constructor
          · intro hcontra
            cases hcontra
          · rintro ⟨hsp, -⟩
            exact absurd hsp hsp0
        | succ k =>
          simp only [List.getD_cons_succ]
          rw [i1 k (by simpa using Nat.lt_of_succ_lt_succ hi)]
          constructor
          · rintro ⟨ha, hb⟩
            refine ⟨ha, fun j hj => ?_⟩
            cases j with
            | zero =>
              simp only [List.getD_cons_zero]
              simpa using hsp0
            | succ j2 =>
              simp only [List.getD_cons_succ]
              exact hb j2 (Nat.lt_of_succ_lt_succ hj)
          · rintro ⟨ha, hb⟩
            refine ⟨ha, fun j hj => ?_⟩
            have := hb (j + 1) (Nat.succ_lt_succ hj)
            simpa using this
      · simp only [List.map_cons, List.count_cons, hnone0]
        simpa using i2
      · intro i hi hstarted
        cases i with
        | zero =>
          simp only [List.getD_cons_zero, hnone0] at hstarted
          cases hstarted
        | succ k =>
          simp only [List.getD_cons_succ] at hstarted ⊢
          exact i3 k (by simpa using Nat.lt_of_succ_lt_succ hi) hstarted

/-- Witness for C2 at a concrete PLANNED trip and the stream
[zero-speed, moving, moving]: the transition is reported exactly at the
second sample. -/
theorem c2_witness :
    (dbPlanned.route_plans = [tripRowPlanned] ∧
      tripRowPlanned.vehicle_plate = plateP ∧
      tripRowPlanned.actual_start_time = none ∧
      tripRowPlanned.actual_end_time = none ∧
      (∀ m ∈ msgsC2, validMsg plateP m.2)) ∧
    (((runHandler allOk dist0 emptyState dbPlanned msgsC2).1.map
        fun r => r.startedTrip).count (some tripRowPlanned.trip_id) ≤ 1) ∧
    ((runHandler allOk dist0 emptyState dbPlanned msgsC2).1.map
        fun r => r.startedTrip) = [none, some tripA, none] :=
  ⟨⟨rfl, rfl, rfl, rfl, by decide⟩,
    (c2_trip_starts_exactly_once dist0 plateP msgsC2 emptyState dbPlanned
      tripRowPlanned rfl rfl rfl rfl (by decide)).2.1,
    by decide⟩

theorem runHandler_length (oracle : WriteOp → Bool) (dist : ℚ × ℚ → ℚ × ℚ → ℚ) :
    ∀ (msgs : List (Millis × VehicleData)) (st : ServerState) (db : DB),
      (runHandler oracle dist st db msgs).1.length = msgs.length
  | [], st, db => rfl
  | (now, msg) :: rest, st, db => by
    simp only [runHandler, List.length_cons]
    rw [runHandler_length oracle dist rest]

/-- All the in-memory facts about one message-handler invocation, for any
write-failure oracle: the registry is never touched from the telemetry
path (in the source, the catch block of `processVehicleData` evaluates
`trip_id`, which is out of scope there, and the resulting ReferenceError
prevents `stopTripMonitoring` from ever running); the cache update is the
normal pre-write one; stop intervals of other plates are untouched; every
escaped error is caught and logged by the message handler's catch; a
throw out of `handleLongStop` leaves the interval exactly as it was at the
moment of the call (lastLocTime already updated, `processed` still unset);
and if the long-stop call did not throw, the interval state is identical
to that of a fully successful run. -/
theorem handleMessage_memory_facts (oracle : WriteOp → Bool)
    (dist : ℚ × ℚ → ℚ × ℚ → ℚ) (st : ServerState) (db : DB) (now : Millis)
    (msg : VehicleData) :
    (handleMessage oracle dist st db now msg).state.activeTrips = st.activeTrips ∧
    (handleMessage oracle dist st db now msg).state.vehicleDataCache =
      mset st.vehicleDataCache msg.plate msg ∧
    (∀ q, q ≠ msg.plate →
      (handleMessage oracle dist st db now msg).state.vehicleStops q =
        st.vehicleStops q) ∧
    ((handleMessage oracle dist st db now msg).caughtError =
      ((handleMessage oracle dist st db now msg).longStopThrew ||
        (handleMessage oracle dist st db now msg).procThrew)) ∧
    ((handleMessage oracle dist st db now msg).longStopThrew = true →
      ∃ si t, st.vehicleStops msg.plate = some si ∧ si.processed = false ∧
        msg.locTime = some (some t) ∧ 300000 ≤ t - si.stopStart ∧
        (handleMessage oracle dist st db now msg).state.vehicleStops msg.plate =
          some ⟨si.stopStart, si.location, t, false⟩) ∧
    ((handleMessage oracle dist st db now msg).longStopThrew = false →
      (handleMessage oracle dist st db now msg).state.vehicleStops =
        (handleMessage allOk dist st db now msg).state.vehicleStops) := by
  rw [handleMessage, handleMessage]
  by_cases hv : (numFalsy msg.latitude || numFalsy msg.longitude) = true
  · simp only [if_pos hv, noEventResult]
    refine ⟨by trivial, by trivial, fun q hq => by trivial, by trivial, ?_, ?_⟩
    · intro hcontra
      exact absurd hcontra Bool.false_ne_true
    · intro h6
      trivial
  · simp only [if_neg hv]
    cases hlt : msg.locTime with
    | none =>
      simp only [noEventResult]
      refine ⟨by trivial, by trivial, fun q hq => by trivial, by trivial, ?_, ?_⟩
      · intro hcontra
        exact absurd hcontra Bool.false_ne_true
      · intro h6
        trivial
    | some o =>
      cases o with
      | none =>
        simp only [noEventResult]
        refine ⟨by trivial, by trivial, fun q hq => by trivial, by trivial, ?_, ?_⟩
        · intro hcontra
          exact absurd hcontra Bool.false_ne_true
        · intro h6
          trivial
      | some t =>
        simp only [trackAndProcess]
        by_cases hsp : (msg.speed == some 0) = true
        · simp only [if_pos hsp]
          cases hstop : st.vehicleStops msg.plate with
          | none =>
            simp only [runProcess]
            refine ⟨by trivial, by trivial,
              fun q hq => by simp [mset, hq], by trivial, ?_, ?_⟩
            · intro hcontra
              exact absurd hcontra Bool.false_ne_true
            · intro h6
              trivial
          | some si =>
            dsimp only
            by_cases hfire : 300000 ≤ t - si.stopStart ∧ si.processed = false
            · rw [if_pos hfire, if_pos hfire]
              have hthok := handleLongStop_allOk_threw dist db msg.plate si.location now
              by_cases hth : (handleLongStop oracle dist db msg.plate si.location now).threw = true
              · rw [if_pos hth]
                rw [if_neg (by rw [hthok]; exact Bool.false_ne_true)]
                simp only [noEventResult, runProcess]
                refine ⟨by trivial, by trivial,
                  fun q hq => by simp [mset, hq], by trivial, ?_, ?_⟩
                · intro _
                  refine ⟨si, t, rfl, hfire.2, rfl, hfire.1, ?_⟩
                  simp [mset, hfire.2]
                · intro hcontra
                  exact absurd hcontra.symm Bool.false_ne_true
              · rw [if_neg hth]
                rw [if_neg (by rw [hthok]; exact Bool.false_ne_true)]
                simp only [runProcess]
                refine ⟨by trivial, by trivial,
                  fun q hq => by simp [mset, hq], by trivial, ?_, ?_⟩
                · intro hcontra
                  exact absurd hcontra Bool.false_ne_true
                · intro h6
                  trivial
            · rw [if_neg hfire, if_neg hfire]
              simp only [runProcess]
              refine ⟨by trivial, by trivial,
                fun q hq => by simp [mset, hq], by trivial, ?_, ?_⟩
              · intro hcontra
                exact absurd hcontra Bool.false_ne_true
              · intro h6
                trivial
        · simp only [if_neg hsp, runProcess]
          refine ⟨by trivial, by trivial,
            fun q hq => by simp [mdel, hq], by trivial, ?_, ?_⟩
          · intro hcontra
            exact absurd hcontra Bool.false_ne_true
          · intro h6
            trivial

/-- C7: when a persistence write fails (throws) while a sample is being
processed — either inside the long-stop handler or inside
`processVehicleData` — the error is caught and logged by the message
handler; the in-memory state is left exactly as it was before the failing
operation: the monitored-trip registry is untouched (no entry removed —
the source's catch-block cleanup is unreachable because `trip_id` is out
of scope there), the cache holds the sample as cached before any write,
stop intervals of other vehicles are untouched, a failed long-stop call
leaves the sample's interval exactly as at the moment of the call
(`lastLocTime` updated, `processed` still unset, so the write can be
retried), and otherwise the interval state matches a fully successful run;
and the ingestion loop keeps processing subsequent samples (one result per
message, for any oracle). -/
theorem c7_write_failure_safe (oracle : WriteOp → Bool)
    (dist : ℚ × ℚ → ℚ × ℚ → ℚ) (st : ServerState) (db : DB) (now : Millis)
    (msg : VehicleData)
    (h : (handleMessage oracle dist st db now msg).longStopThrew = true ∨
      (handleMessage oracle dist st db now msg).procThrew = true) :
    (handleMessage oracle dist st db now msg).caughtError = true ∧
    (handleMessage oracle dist st db now msg).state.activeTrips = st.activeTrips ∧
    (handleMessage oracle dist st db now msg).state.vehicleDataCache =
      mset st.vehicleDataCache msg.plate msg ∧
    (∀ q, q ≠ msg.plate →
      (handleMessage oracle dist st db now msg).state.vehicleStops q =
        st.vehicleStops q) ∧
    ((handleMessage oracle dist st db now msg).longStopThrew = true →
      ∃ si t, st.vehicleStops msg.plate = some si ∧ si.processed = false ∧
        msg.locTime = some (some t) ∧ 300000 ≤ t - si.stopStart ∧
        (handleMessage oracle dist st db now msg).state.vehicleStops msg.plate =
          some ⟨si.stopStart, si.location, t, false⟩) ∧
    ((handleMessage oracle dist st db now msg).longStopThrew = false →
      (handleMessage oracle dist st db now msg).state.vehicleStops =
        (handleMessage allOk dist st db now msg).state.vehicleStops) ∧
    (∀ msgs, (runHandler oracle dist st db msgs).1.length = msgs.length) := by
  obtain ⟨f1, f2, f3, f4, f5, f6⟩ :=
    handleMessage_memory_facts oracle dist st db now msg
  refine ⟨?_, f1, f2, f3, f5, f6, fun msgs => runHandler_length oracle dist msgs st db⟩
  rw [f4]
  rcases h with h | h
  · rw [h]
    rfl
  · rw [h]
    simp

/-- Witness for C7: a concrete run where the coordinate-log insert fails
for a zero-speed sample on a started trip. -/
theorem c7_witness :
    ((handleMessage oracleFail dist0 emptyState dbStarted 1000 msgStop).procThrew = true) ∧
    ((handleMessage oracleFail dist0 emptyState dbStarted 1000 msgStop).caughtError = true ∧
      (handleMessage oracleFail dist0 emptyState dbStarted 1000 msgStop).state.activeTrips =
        emptyState.activeTrips ∧
      (handleMessage oracleFail dist0 emptyState dbStarted 1000 msgStop).state.vehicleDataCache =
        mset emptyState.vehicleDataCache msgStop.plate msgStop ∧
      (∀ q, q ≠ msgStop.plate →
        (handleMessage oracleFail dist0 emptyState dbStarted 1000 msgStop).state.vehicleStops q =
          emptyState.vehicleStops q) ∧
      ((handleMessage oracleFail dist0 emptyState dbStarted 1000 msgStop).longStopThrew = true →
        ∃ si t, emptyState.vehicleStops msgStop.plate = some si ∧ si.processed = false ∧
          msgStop.locTime = some (some t) ∧ 300000 ≤ t - si.stopStart ∧
          (handleMessage oracleFail dist0 emptyState dbStarted 1000 msgStop).state.vehicleStops
            msgStop.plate = some ⟨si.stopStart, si.location, t, false⟩) ∧
      ((handleMessage oracleFail dist0 emptyState dbStarted 1000 msgStop).longStopThrew = false →
        (handleMessage oracleFail dist0 emptyState dbStarted 1000 msgStop).state.vehicleStops =
          (handleMessage allOk dist0 emptyState dbStarted 1000 msgStop).state.vehicleStops) ∧
      (∀ msgs, (runHandler oracleFail dist0 emptyState dbStarted msgs).1.length = msgs.length)) :=
  ⟨by decide,
    c7_write_failure_safe oracleFail dist0 emptyState dbStarted 1000 msgStop
      (Or.inr (by decide))⟩

/- ### C3: idempotence of marking and of the completion side effect -/

/-- Key of an `assigned_customers` row: the `(trip_id, customer_code)` pair
targeted by a `markCompleted` update
(`.eq('trip_id', tripId).eq('customer_code', customer.customer_code)`). -/
def keyOf (c : Customer) : String × String := (c.trip_id, c.customer_code)

/-- The customer keys of the store, in row order. -/
def custKeys (db : DB) : List (String × String) :=
  db.assigned_customers.map keyOf

/-- Some customer row with key `k` is still incomplete. -/
def hasIncomplete (db : DB) (k : String × String) : Prop :=
  ∃ c ∈ db.assigned_customers, keyOf c = k ∧ c.completed = false

/-- Every `route_plans` row of trip `T` has its `actual_end_time` set. -/
def tripClosed (db : DB) (T : String) : Prop :=
  ∀ t ∈ db.route_plans, t.trip_id = T → t.actual_end_time ≠ none

/-- Pointwise relation on the customer table: rows keep their position and
key, and `completed` only ever flips from `false` to `true`. -/
def custRel (db db' : DB) : Prop :=
  db'.assigned_customers.length = db.assigned_customers.length ∧
  ∀ (i : ℕ) (c c' : Customer), db.assigned_customers[i]? = some c →
    db'.assigned_customers[i]? = some c' →
    c'.trip_id = c.trip_id ∧ c'.customer_code = c.customer_code ∧
      (c.completed = true → c'.completed = true)

/-- Pointwise relation on the plans table: rows keep their position and
trip id, and a set `actual_end_time` never becomes unset again. -/
def endMono (db db' : DB) : Prop :=
  db'.route_plans.length = db.route_plans.length ∧
  ∀ (i : ℕ) (t t' : Trip), db.route_plans[i]? = some t →
    db'.route_plans[i]? = some t' →
    t'.trip_id = t.trip_id ∧ (t.actual_end_time ≠ none → t'.actual_end_time ≠ none)

theorem custRel_of_customers_eq {db db' : DB}
    (h : db'.assigned_customers = db.assigned_customers) : custRel db db' := by
  refine ⟨by rw [h], ?_⟩
  intro i c c' h1 h2
  rw [h, h1] at h2
  cases h2
  exact ⟨rfl, rfl, fun hc => hc⟩

theorem custRel_refl (db : DB) : custRel db db := custRel_of_customers_eq rfl

theorem custRel_trans {db1 db2 db3 : DB} (h12 : custRel db1 db2)
    (h23 : custRel db2 db3) : custRel db1 db3 := by
  obtain ⟨hl12, hp12⟩ := h12
  obtain ⟨hl23, hp23⟩ := h23
  refine ⟨hl23.trans hl12, ?_⟩
  intro i c c' h1 h3
  have hi1 : i < db1.assigned_customers.length := (List.getElem?_eq_some.mp h1).1
  have hi2 : i < db2.assigned_customers.length := by rw [hl12]; exact hi1
  have h2 : db2.assigned_customers[i]? = some db2.assigned_customers[i] :=
    List.getElem?_eq_getElem hi2
  obtain ⟨e1, e2, e3⟩ := hp12 i c _ h1 h2
  obtain ⟨f1, f2, f3⟩ := hp23 i _ c' h2 h3
  exact ⟨f1.trans e1, f2.trans e2, fun hc => f3 (e3 hc)⟩

theorem endMono_of_plans_eq {db db' : DB}
    (h : db'.route_plans = db.route_plans) : endMono db db' := by
  refine ⟨by rw [h], ?_⟩
  intro i t t' h1 h2
  rw [h, h1] at h2
  cases h2
  exact ⟨rfl, fun hc => hc⟩

theorem endMono_refl (db : DB) : endMono db db := endMono_of_plans_eq rfl

theorem endMono_trans {db1 db2 db3 : DB} (h12 : endMono db1 db2)
    (h23 : endMono db2 db3) : endMono db1 db3 := by
  obtain ⟨hl12, hp12⟩ := h12
  obtain ⟨hl23, hp23⟩ := h23
  refine ⟨hl23.trans hl12, ?_⟩
  intro i t t' h1 h3
  have hi1 : i < db1.route_plans.length := (List.getElem?_eq_some.mp h1).1
  have hi2 : i < db2.route_plans.length := by rw [hl12]; exact hi1
  have h2 : db2.route_plans[i]? = some db2.route_plans[i] :=
    List.getElem?_eq_getElem hi2
  obtain ⟨e1, e2⟩ := hp12 i t _ h1 h2
  obtain ⟨f1, f2⟩ := hp23 i _ t' h2 h3
  exact ⟨f1.trans e1, fun hc => f2 (e2 hc)⟩

theorem applyWrite_custRel (db : DB) (w : WriteOp) :
    custRel db (db.applyWrite w) := by
  cases w with
  | setStart tid t => exact custRel_of_customers_eq rfl
  | insertCoord row => exact custRel_of_customers_eq rfl
  | completeTrip tid t => exact custRel_of_customers_eq rfl
  | markCompleted tid code t =>
    refine ⟨by simp [DB.applyWrite], ?_⟩
    intro i c c' h1 h2
    simp only [DB.applyWrite, List.getElem?_map, h1, Option.map_some'] at h2
    cases h2
    split
    next hc => exact ⟨rfl, rfl, fun _ => rfl⟩
    next hc => exact ⟨rfl, rfl, fun hcc => hcc⟩

theorem applyWrite_endMono (db : DB) (w : WriteOp) :
    endMono db (db.applyWrite w) := by
  cases w with
  | insertCoord row => exact endMono_of_plans_eq rfl
  | markCompleted tid code t => exact endMono_of_plans_eq rfl
  | setStart tid t =>
    refine ⟨by simp [DB.applyWrite], ?_⟩
    intro i t1 t2 h1 h2
    simp only [DB.applyWrite, List.getElem?_map, h1, Option.map_some'] at h2
    cases h2
    split
    next hc => exact ⟨rfl, fun hcc => hcc⟩
    next hc => exact ⟨rfl, fun hcc => hcc⟩
  | completeTrip tid t =>
    refine ⟨by simp [DB.applyWrite], ?_⟩
    intro i t1 t2 h1 h2
    simp only [DB.applyWrite, List.getElem?_map, h1, Option.map_some'] at h2
    cases h2
    split
    next hc => exact ⟨rfl, fun _ => Option.some_ne_none t⟩
    next hc => exact ⟨rfl, fun hcc => hcc⟩

theorem custRel_keys {db db' : DB} (h : custRel db db') :
    custKeys db' = custKeys db := by
  obtain ⟨hl, hp⟩ := h
  apply List.ext_getElem?
  intro i
  rw [custKeys, custKeys, List.getElem?_map, List.getElem?_map]
  cases h1 : db.assigned_customers[i]? with
  | none =>
    have hge : db.assigned_customers.length ≤ i := by
      by_contra hlt
      rw [List.getElem?_eq_getElem (lt_of_not_le hlt)] at h1
      exact Option.noConfusion h1
    rw [List.getElem?_eq_none (by rw [hl]; exact hge)]
  | some c =>
    have hi1 : i < db.assigned_customers.length := (List.getElem?_eq_some.mp h1).1
    have hi2 : i < db'.assigned_customers.length := by rw [hl]; exact hi1
    have h2 : db'.assigned_customers[i]? = some db'.assigned_customers[i] :=
      List.getElem?_eq_getElem hi2
    obtain ⟨e1, e2, e3⟩ := hp i c _ h1 h2
    rw [h2]
    simp only [Option.map_some', Option.some.injEq, keyOf, Prod.mk.injEq]
    exact ⟨e1, e2⟩

theorem custRel_hasIncomplete {db db' : DB} (h : custRel db db')
    {k : String × String} (hk : hasIncomplete db' k) : hasIncomplete db k := by
  obtain ⟨hl, hp⟩ := h
  obtain ⟨c', hmem, hkey, hcomp⟩ := hk
  obtain ⟨i, hi⟩ := List.getElem?_of_mem hmem
  have hi2 : i < db'.assigned_customers.length := (List.getElem?_eq_some.mp hi).1
  have hi1 : i < db.assigned_customers.length := by rw [← hl]; exact hi2
  have h1 : db.assigned_customers[i]? = some db.assigned_customers[i] :=
    List.getElem?_eq_getElem hi1
  obtain ⟨e1, e2, e3⟩ := hp i _ c' h1 hi
  refine ⟨db.assigned_customers[i], List.getElem_mem hi1, ?_, ?_⟩
  · rw [keyOf] at hkey ⊢
    rw [← e1, ← e2]
    exact hkey
  · cases hb : db.assigned_customers[i].completed with
    | false => rfl
    | true => exact absurd (e3 hb) (by rw [hcomp]; exact (by decide : ¬ (false = true)))

theorem endMono_tripClosed {db db' : DB} (h : endMono db db') {T : String}
    (hc : tripClosed db T) : tripClosed db' T := by
  obtain ⟨hl, hp⟩ := h
  intro t' hmem htid
  obtain ⟨i, hi⟩ := List.getElem?_of_mem hmem
  have hi2 : i < db'.route_plans.length := (List.getElem?_eq_some.mp hi).1
  have hi1 : i < db.route_plans.length := by rw [← hl]; exact hi2
  have h1 : db.route_plans[i]? = some db.route_plans[i] :=
    List.getElem?_eq_getElem hi1
  obtain ⟨e1, e2⟩ := hp i _ t' h1 hi
  exact e2 (hc db.route_plans[i] (List.getElem_mem hi1) (e1.symm.trans htid))

theorem tripClosed_congr {db db' : DB}
    (h : db'.route_plans = db.route_plans) (T : String) :
    tripClosed db' T ↔ tripClosed db T := by
  rw [tripClosed, tripClosed, h]

theorem hasIncomplete_congr {db db' : DB}
    (h : db'.assigned_customers = db.assigned_customers) (k : String × String) :
    hasIncomplete db' k ↔ hasIncomplete db k := by
  rw [hasIncomplete, hasIncomplete, h]

/-- A successful `markCompleted` write leaves no incomplete row under the
written key: every row matching the key filter gets `completed = true`. -/
theorem applyWrite_mark_completes (db : DB) (tid code : String) (t : Millis) :
    ¬ hasIncomplete (db.applyWrite (WriteOp.markCompleted tid code t))
      (tid, code) := by
  rintro ⟨c', hmem, hkey, hcomp⟩
  simp only [DB.applyWrite, List.mem_map] at hmem
  obtain ⟨c, hc, rfl⟩ := hmem
  by_cases hcond : c.trip_id = tid ∧ c.customer_code = code
  · rw [if_pos hcond] at hcomp
    simp at hcomp
  · rw [if_neg hcond] at hkey
    rw [keyOf, Prod.mk.injEq] at hkey
    exact hcond ⟨hkey.1, hkey.2⟩

/-- A `markCompleted` write touches only rows of its own key. -/
theorem applyWrite_mark_other {db : DB} {tid code : String} {t : Millis}
    {k : String × String} (hne : k ≠ (tid, code)) (h : hasIncomplete db k) :
    hasIncomplete (db.applyWrite (WriteOp.markCompleted tid code t)) k := by
  obtain ⟨c, hmem, hkey, hcomp⟩ := h
  have hcond : ¬ (c.trip_id = tid ∧ c.customer_code = code) := by
    rintro ⟨h1, h2⟩
    apply hne
    rw [← hkey, keyOf, h1, h2]
  refine ⟨c, ?_, hkey, hcomp⟩
  simp only [DB.applyWrite, List.mem_map]
  exact ⟨c, hmem, by rw [if_neg hcond]⟩

/-- A successful `complete_trip` write closes every row of the trip. -/
theorem applyWrite_complete_closes (db : DB) (tid : String) (t : Millis) :
    tripClosed (db.applyWrite (WriteOp.completeTrip tid t)) tid := by
  intro tr hmem htid
  simp only [DB.applyWrite, List.mem_map] at hmem
  obtain ⟨t0, ht0, rfl⟩ := hmem
  by_cases hcond : t0.trip_id = tid
  · rw [if_pos hcond]
    simp
  · rw [if_neg hcond] at htid
    exact absurd htid hcond

/-- The C3 invariant for one processing phase from `db` to `dbF` producing
`marks` and `fires`: both tables evolve monotonically, every mark hit a
then-incomplete key and leaves it completed, no key is marked twice, no
trip fires `complete_trip` twice, and every fired trip had an open row
before and only closed rows after. -/
def c3Facts (db dbF : DB) (marks : List (String × String))
    (fires : List String) : Prop :=
  custRel db dbF ∧ endMono db dbF ∧
  (∀ k ∈ marks, hasIncomplete db k) ∧
  (∀ k ∈ marks, ¬ hasIncomplete dbF k) ∧
  (∀ k, marks.count k ≤ 1) ∧
  (∀ T, fires.count T ≤ 1) ∧
  (∀ T ∈ fires, ¬ tripClosed db T ∧ tripClosed dbF T)

theorem c3Facts_nil {db dbF : DB} (h1 : custRel db dbF) (h2 : endMono db dbF) :
    c3Facts db dbF [] [] := by
  refine ⟨h1, h2, ?_, ?_, ?_, ?_, ?_⟩ <;> simp

theorem c3Facts_refl (db : DB) : c3Facts db db [] [] :=
  c3Facts_nil (custRel_refl db) (endMono_refl db)

/-- Composition of the C3 invariant across two phases: a key marked in the
first phase is complete throughout the second (so never re-marked), and a
trip fired in the first phase is closed throughout the second (so never
re-fired). -/
theorem c3Facts_trans {db dbM dbF : DB} {m1 m2 : List (String × String)}
    {f1 f2 : List String} (h1 : c3Facts db dbM m1 f1)
    (h2 : c3Facts dbM dbF m2 f2) : c3Facts db dbF (m1 ++ m2) (f1 ++ f2) := by
  obtain ⟨hr1, he1, hin1, hout1, hm1, hf1, hfc1⟩ := h1
  obtain ⟨hr2, he2, hin2, hout2, hm2, hf2, hfc2⟩ := h2
  refine ⟨custRel_trans hr1 hr2, endMono_trans he1 he2, ?_, ?_, ?_, ?_, ?_⟩
  · intro k hk
    rcases List.mem_append.mp hk with h | h
    · exact hin1 k h
    · exact custRel_hasIncomplete hr1 (hin2 k h)
  · intro k hk
    rcases List.mem_append.mp hk with h | h
    · exact fun hx => (hout1 k h) (custRel_hasIncomplete hr2 hx)
    · exact hout2 k h
  · intro k
    rw [List.count_append]
    by_cases hk : k ∈ m1
    · have hz : m2.count k = 0 := by
        rw [List.count_eq_zero]
        intro hk2
        exact (hout1 k hk) (hin2 k hk2)
      rw [hz]
      simpa using hm1 k
    · rw [List.count_eq_zero.mpr hk]
      simpa using hm2 k
  · intro T
    rw [List.count_append]
    by_cases hT : T ∈ f1
    · have hz : f2.count T = 0 := by
        rw [List.count_eq_zero]
        intro hT2
        exact ((hfc2 T hT2).1) ((hfc1 T hT).2)
      rw [hz]
      simpa using hf1 T
    · rw [List.count_eq_zero.mpr hT]
      simpa using hf2 T
  · intro T hT
    rcases List.mem_append.mp hT with h | h
    · exact ⟨(hfc1 T h).1, endMono_tripClosed he2 (hfc1 T h).2⟩
    · refine ⟨?_, (hfc2 T h).2⟩
      intro hcl
      exact (hfc2 T h).1 (endMono_tripClosed he1 hcl)

/-- Facts about a successful `checkTripCompletion`: the customer table is
untouched, ends are monotone, a fire closes the trip and implies every
customer row of the trip was completed, and with no fire the store is
untouched. -/
theorem checkTripCompletion_c3 (db : DB) (tid : String) (now : Millis)
    (db2 : DB) (f : Bool)
    (h : checkTripCompletion allOk db tid now = Except.ok (db2, f)) :
    db2.assigned_customers = db.assigned_customers ∧
    endMono db db2 ∧
    (f = true → tripClosed db2 tid) ∧
    (f = false → db2 = db) ∧
    (f = true → ∀ c ∈ db.assigned_customers, c.trip_id = tid →
      c.completed = true) := by
  rw [checkTripCompletion] at h
  by_cases h1 : (db.customersAll tid).length > 0
  · rw [if_pos h1] at h
    by_cases h2 : ((db.customersAll tid).all fun c => c.completed) = true
    · rw [if_pos h2, doWrite_allOk] at h
      cases h
      refine ⟨rfl, applyWrite_endMono db _, fun _ => applyWrite_complete_closes db tid now,
        fun hff => absurd hff (by decide), fun _ => ?_⟩
      intro c hc htid
      exact List.all_eq_true.mp h2 c (by
        rw [DB.customersAll, List.mem_filter]
        exact ⟨hc, by simpa using htid⟩)
    · rw [if_neg h2] at h
      cases h
      exact ⟨rfl, endMono_refl db, fun hff => absurd hff (by decide),
        fun _ => rfl, fun hff => absurd hff (by decide)⟩
  · rw [if_neg h1] at h
    cases h
    exact ⟨rfl, endMono_refl db, fun hff => absurd hff (by decide),
      fun _ => rfl, fun hff => absurd hff (by decide)⟩

/-- Unpacking membership in the incomplete-customers fetch. -/
theorem customersIncomplete_facts {db : DB} {tid : String} {c : Customer}
    (h : c ∈ db.customersIncomplete tid) :
    c ∈ db.assigned_customers ∧ c.trip_id = tid ∧ c.completed = false := by
  rw [DB.customersIncomplete, List.mem_filter] at h
  refine ⟨h.1, ?_⟩
  have h2 := h.2
  simp only [decide_eq_true_eq] at h2
  exact h2

/-- Rows of one trip with pairwise-distinct keys have pairwise-distinct
customer codes. -/
theorem codes_nodup_of_keys {cs : List Customer} {tid : String}
    (htid : ∀ c ∈ cs, c.trip_id = tid) (h : (cs.map keyOf).Nodup) :
    (cs.map fun c => c.customer_code).Nodup := by
  induction cs with
  | nil => simp
  | cons c rest ih =>
    simp only [List.map_cons, List.nodup_cons] at h ⊢
    refine ⟨?_, ih (fun c' hc' => htid c' (List.mem_cons_of_mem c hc')) h.2⟩
    intro hmem
    apply h.1
    rw [List.mem_map] at hmem ⊢
    obtain ⟨c', hc', hcode⟩ := hmem
    refine ⟨c', hc', ?_⟩
    simp only [keyOf, Prod.mk.injEq]
    exact ⟨by rw [htid c' (List.mem_cons_of_mem c hc'),
      htid c (List.mem_cons_self c rest)], hcode⟩

/-- The incomplete-customers fetch of a store with pairwise-distinct
customer keys yields pairwise-distinct customer codes. -/
theorem customersIncomplete_codes_nodup {db : DB} (tid : String)
    (hkeys : (custKeys db).Nodup) :
    ((db.customersIncomplete tid).map fun c => c.customer_code).Nodup := by
  have hsub : List.Sublist ((db.customersIncomplete tid).map keyOf)
      (custKeys db) := (List.filter_sublist db.assigned_customers).map keyOf
  exact codes_nodup_of_keys (fun c hc => (customersIncomplete_facts hc).2.1)
    (hkeys.sublist hsub)

/-- The long-stop marking loop issues only `markCompleted` writes, so the
plans table is untouched. -/
theorem longStopLoop_plans (oracle : WriteOp → Bool) (dist : ℚ × ℚ → ℚ × ℚ → ℚ)
    (vp : ℚ × ℚ) (tid : String) (now : Millis) :
    ∀ (cs : List Customer) (db : DB),
      (longStopLoop oracle dist vp tid now db cs).db.route_plans =
        db.route_plans
  | [], db => rfl
  | c :: rest, db => by
    simp only [longStopLoop]
    by_cases hd : dist vp (c.lng, c.lat) ≤ 1
    · simp only [if_pos hd]
      by_cases ho : oracle (WriteOp.markCompleted tid c.customer_code now) = true
      · rw [doWrite_eq_ok oracle db _ ho]
        exact longStopLoop_plans oracle dist vp tid now rest _
      · rw [doWrite_eq_error oracle db _ (by simpa using ho)]
    · simp only [if_neg hd]
      exact longStopLoop_plans oracle dist vp tid now rest db

/-- C3 invariant for the long-stop marking loop (all writes succeeding):
the fetched customers all carry a then-incomplete key and pairwise-distinct
codes, so every mark hits a fresh incomplete key and no key is marked
twice; the loop runs no completion check, so it fires nothing. -/
theorem longStopLoop_c3 (dist : ℚ × ℚ → ℚ × ℚ → ℚ) (vp : ℚ × ℚ)
    (tid : String) (now : Millis) :
    ∀ (cs : List Customer) (db : DB),
      (∀ c ∈ cs, hasIncomplete db (tid, c.customer_code)) →
      ((cs.map fun c => c.customer_code).Nodup) →
      c3Facts db (longStopLoop allOk dist vp tid now db cs).db
        (longStopLoop allOk dist vp tid now db cs).marks
        (longStopLoop allOk dist vp tid now db cs).fires
  | [], db => by
    intro _ _
    simp only [longStopLoop]
    exact c3Facts_refl db
  | c :: rest, db => by
    intro hinc hnd
    rw [List.map_cons, List.nodup_cons] at hnd
    simp only [longStopLoop]
    by_cases hd : dist vp (c.lng, c.lat) ≤ 1
    · simp only [if_pos hd, doWrite_allOk]
      have hstep : c3Facts db
          (db.applyWrite (WriteOp.markCompleted tid c.customer_code now))
          [(tid, c.customer_code)] [] := by
        refine ⟨applyWrite_custRel db _, endMono_of_plans_eq rfl, ?_, ?_, ?_,
          by simp, by simp⟩
        · intro k hk
          rw [List.mem_singleton] at hk
          subst hk
          exact hinc c (List.mem_cons_self c rest)
        · intro k hk
          rw [List.mem_singleton] at hk
          subst hk
          exact applyWrite_mark_completes db tid c.customer_code now
        · intro k
          by_cases hk : k = (tid, c.customer_code) <;>
            simp [List.count_cons, hk]
      have htail := longStopLoop_c3 dist vp tid now rest
        (db.applyWrite (WriteOp.markCompleted tid c.customer_code now))
        (fun c' hc' => by
          refine applyWrite_mark_other ?_ (hinc c' (List.mem_cons_of_mem c hc'))
          simp only [ne_eq, Prod.mk.injEq, not_and]
          intro _ hcode
          exact hnd.1 (List.mem_map.mpr ⟨c', hc', hcode⟩))
        hnd.2
      have hcomb := c3Facts_trans hstep htail
      simpa using hcomb
    · simp only [if_neg hd]
      exact longStopLoop_c3 dist vp tid now rest db
        (fun c' hc' => hinc c' (List.mem_cons_of_mem c hc')) hnd.2

/-- C3 invariant for the telemetry marking loop (all writes succeeding).
On top of the long-stop loop's facts, the per-mark completion check can
fire `complete_trip`: a fire needs every customer row of the trip
completed, which while any fetched customer remains unprocessed is
impossible (their keys are still incomplete), so only the last marked
customer can trigger it — the loop fires at most once, and a fire closes
the trip. -/
theorem telemetryLoop_c3 (dist : ℚ × ℚ → ℚ × ℚ → ℚ) (vp : ℚ × ℚ)
    (tid : String) (now : Millis) :
    ∀ (cs : List Customer) (db : DB),
      (∀ c ∈ cs, hasIncomplete db (tid, c.customer_code)) →
      ((cs.map fun c => c.customer_code).Nodup) →
      ¬ tripClosed db tid →
      c3Facts db (telemetryLoop allOk dist vp tid now db cs).db
        (telemetryLoop allOk dist vp tid now db cs).marks
        (telemetryLoop allOk dist vp tid now db cs).fires
  | [], db => by
    intro _ _ _
    simp only [telemetryLoop]
    exact c3Facts_refl db
  | c :: rest, db => by
    intro hinc hnd hopen
    rw [List.map_cons, List.nodup_cons] at hnd
    simp only [telemetryLoop]
    by_cases hd : dist vp (c.lng, c.lat) ≤ 1
    · simp only [if_pos hd, doWrite_allOk]
      obtain ⟨db3, fired, hck⟩ := checkTripCompletion_allOk_ok
        (db.applyWrite (WriteOp.markCompleted tid c.customer_code now)) tid now
      simp only [hck]
      obtain ⟨hcust3, hend3, hclosed3, hnofire3, hall3⟩ :=
        checkTripCompletion_c3 _ tid now db3 fired hck
      have hincdb2 : ∀ c' ∈ rest, hasIncomplete
          (db.applyWrite (WriteOp.markCompleted tid c.customer_code now))
          (tid, c'.customer_code) := by
        intro c' hc'
        refine applyWrite_mark_other ?_ (hinc c' (List.mem_cons_of_mem c hc'))
        simp only [ne_eq, Prod.mk.injEq, not_and]
        intro _ hcode
        exact hnd.1 (List.mem_map.mpr ⟨c', hc', hcode⟩)
      cases fired with
      | true =>
        have hrest : rest = [] := by
          cases hr : rest with
          | nil => rfl
          | cons c' rs =>
            obtain ⟨cw, hcw, hkw, hcompw⟩ := hincdb2 c'
              (by rw [hr]; exact List.mem_cons_self c' rs)
            have hct : cw.completed = true := by
              refine hall3 rfl cw hcw ?_
              rw [keyOf, Prod.mk.injEq] at hkw
              exact hkw.1
            rw [hct] at hcompw
            exact absurd hcompw (by decide)
        subst hrest
        simp only [telemetryLoop]
        show c3Facts db db3 [(tid, c.customer_code)] ([tid] ++ [])
        refine ⟨custRel_trans (applyWrite_custRel db _)
            (custRel_of_customers_eq hcust3),
          endMono_trans (endMono_of_plans_eq rfl) hend3, ?_, ?_, ?_, ?_, ?_⟩
        · intro k hk
          rw [List.mem_singleton] at hk
          subst hk
          exact hinc c (List.mem_cons_self c [])
        · intro k hk
          rw [List.mem_singleton] at hk
          subst hk
          exact fun hx => applyWrite_mark_completes db tid c.customer_code now
            ((hasIncomplete_congr hcust3 _).mp hx)
        · intro k
          by_cases hk : k = (tid, c.customer_code) <;>
            simp [List.count_cons, hk]
        · intro T
          by_cases hT : T = tid <;> simp [List.count_cons, hT]
        · intro T hT
          simp only [List.append_nil, List.mem_singleton] at hT
          subst hT
          exact ⟨hopen, hclosed3 rfl⟩
      | false =>
        have hdb3 : db3 =
            db.applyWrite (WriteOp.markCompleted tid c.customer_code now) :=
          hnofire3 rfl
        subst hdb3
        have hstep : c3Facts db
            (db.applyWrite (WriteOp.markCompleted tid c.customer_code now))
            [(tid, c.customer_code)] [] := by
          refine ⟨applyWrite_custRel db _, endMono_of_plans_eq rfl, ?_, ?_, ?_,
            by simp, by simp⟩
          · intro k hk
            rw [List.mem_singleton] at hk
            subst hk
            exact hinc c (List.mem_cons_self c rest)
          · intro k hk
            rw [List.mem_singleton] at hk
            subst hk
            exact applyWrite_mark_completes db tid c.customer_code now
          · intro k
            by_cases hk : k = (tid, c.customer_code) <;>
              simp [List.count_cons, hk]
        have htail := telemetryLoop_c3 dist vp tid now rest
          (db.applyWrite (WriteOp.markCompleted tid c.customer_code now))
          hincdb2 hnd.2
          (fun hx => hopen ((tripClosed_congr rfl tid).mp hx))
        have hcomb := c3Facts_trans hstep htail
        simpa using hcomb
    · simp only [if_neg hd]
      exact telemetryLoop_c3 dist vp tid now rest db
        (fun c' hc' => hinc c' (List.mem_cons_of_mem c hc')) hnd.2 hopen

/-- C3 invariant for the telemetry loop over its own incomplete-customers
fetch, from any store with pairwise-distinct customer keys and an open row
for the trip. -/
theorem telemetryLoop_fetch_c3 (dist : ℚ × ℚ → ℚ × ℚ → ℚ) (vp : ℚ × ℚ)
    (tid : String) (now : Millis) (db : DB) (hkeys : (custKeys db).Nodup)
    (hopen : ¬ tripClosed db tid) :
    c3Facts db
      (telemetryLoop allOk dist vp tid now db (db.customersIncomplete tid)).db
      (telemetryLoop allOk dist vp tid now db (db.customersIncomplete tid)).marks
      (telemetryLoop allOk dist vp tid now db (db.customersIncomplete tid)).fires :=
  telemetryLoop_c3 dist vp tid now (db.customersIncomplete tid) db
    (fun c hc => by
      obtain ⟨hmem, htid, hcomp⟩ := customersIncomplete_facts hc
      exact ⟨c, hmem, by rw [keyOf, htid], hcomp⟩)
    (customersIncomplete_codes_nodup tid hkeys) hopen

/-- C3 invariant for the long-stop loop over its own incomplete-customers
fetch. -/
theorem longStopLoop_fetch_c3 (dist : ℚ × ℚ → ℚ × ℚ → ℚ) (vp : ℚ × ℚ)
    (tid : String) (now : Millis) (db : DB) (hkeys : (custKeys db).Nodup) :
    c3Facts db
      (longStopLoop allOk dist vp tid now db (db.customersIncomplete tid)).db
      (longStopLoop allOk dist vp tid now db (db.customersIncomplete tid)).marks
      (longStopLoop allOk dist vp tid now db (db.customersIncomplete tid)).fires :=
  longStopLoop_c3 dist vp tid now (db.customersIncomplete tid) db
    (fun c hc => by
      obtain ⟨hmem, htid, hcomp⟩ := customersIncomplete_facts hc
      exact ⟨c, hmem, by rw [keyOf, htid], hcomp⟩)
    (customersIncomplete_codes_nodup tid hkeys)

/-- C3 invariant for one `handleLongStop` call (all writes succeeding):
only the trip at the head of the started-open query (whose head row is
unended, hence the trip is not closed) can fire, and at most once. -/
theorem handleLongStop_c3 (dist : ℚ × ℚ → ℚ × ℚ → ℚ) (db : DB)
    (plate : String) (loc : ℚ × ℚ) (now : Millis)
    (hkeys : (custKeys db).Nodup) :
    c3Facts db (handleLongStop allOk dist db plate loc now).db
      (handleLongStop allOk dist db plate loc now).marks
      (handleLongStop allOk dist db plate loc now).fires := by
  rw [handleLongStop]
  cases hq : db.startedOpenTrips plate with
  | nil => exact c3Facts_refl db
  | cons t ts =>
    have htmem : t ∈ db.startedOpenTrips plate := by
      rw [hq]; exact List.mem_cons_self t ts
    rw [DB.startedOpenTrips, List.mem_filter] at htmem
    have htf : t.vehicle_plate = plate ∧ t.actual_start_time ≠ none ∧
        t.actual_end_time = none := by simpa using htmem.2
    have hopen : ¬ tripClosed db t.trip_id := by
      intro hcl
      exact hcl t htmem.1 rfl htf.2.2
    have hloop := longStopLoop_fetch_c3 dist (loc.2, loc.1) t.trip_id now db hkeys
    have hthrew := longStopLoop_allOk_threw dist (loc.2, loc.1) t.trip_id now
      (db.customersIncomplete t.trip_id) db
    obtain ⟨db2, fired, hck⟩ := checkTripCompletion_allOk_ok
      (longStopLoop allOk dist (loc.2, loc.1) t.trip_id now db
        (db.customersIncomplete t.trip_id)).db t.trip_id now
    simp only [hthrew, hck]
    obtain ⟨hcust2, hend2, hclosed2, hnofire2, hall2⟩ :=
      checkTripCompletion_c3 _ t.trip_id now db2 fired hck
    have hopen1 : ¬ tripClosed
        (longStopLoop allOk dist (loc.2, loc.1) t.trip_id now db
          (db.customersIncomplete t.trip_id)).db t.trip_id := by
      intro hx
      exact hopen ((tripClosed_congr
        (longStopLoop_plans allOk dist (loc.2, loc.1) t.trip_id now
          (db.customersIncomplete t.trip_id) db) t.trip_id).mp hx)
    have hphase2 : c3Facts
        (longStopLoop allOk dist (loc.2, loc.1) t.trip_id now db
          (db.customersIncomplete t.trip_id)).db db2 []
        (if fired then [t.trip_id] else []) := by
      refine ⟨custRel_of_customers_eq hcust2, hend2, by simp, by simp, by simp,
        ?_, ?_⟩
      · intro T
        cases fired with
        | false => simp
        | true =>
          show List.count T [t.trip_id] ≤ 1
          by_cases hT : T = t.trip_id <;> simp [List.count_cons, hT]
      · intro T hT
        cases fired with
        | false => simp at hT
        | true =>
          simp only [if_pos] at hT
          rw [List.mem_singleton] at hT
          subst hT
          exact ⟨hopen1, hclosed2 rfl⟩
    have hcomb := c3Facts_trans hloop hphase2
    simpa using hcomb

/-- C3 invariant for the post-start part of `processVehicleData` (all
writes succeeding): the coordinate insert touches neither table, then the
telemetry loop runs on the fetch. -/
theorem pvdAfterStart_c3 (dist : ℚ × ℚ → ℚ × ℚ → ℚ) (db : DB)
    (msg : VehicleData) (now : Millis) (tid : String) (s : Option Millis)
    (st0 : Option String) (hkeys : (custKeys db).Nodup)
    (hopen : ¬ tripClosed db tid) :
    c3Facts db (pvdAfterStart allOk dist db msg now tid s st0).db
      (pvdAfterStart allOk dist db msg now tid s st0).marks
      (pvdAfterStart allOk dist db msg now tid s st0).fires := by
  rw [pvdAfterStart]
  by_cases hs : s = none
  · simp only [if_pos hs]
    exact c3Facts_refl db
  · simp only [if_neg hs, doWrite_allOk]
    have hphase0 : c3Facts db
        (db.applyWrite (WriteOp.insertCoord
          ⟨tid, msg.plate, qget msg.latitude, qget msg.longitude,
            qget msg.speed, now⟩)) [] [] :=
      c3Facts_nil (custRel_of_customers_eq rfl) (endMono_of_plans_eq rfl)
    have hloop := telemetryLoop_fetch_c3 dist
      (qget msg.longitude, qget msg.latitude) tid now
      (db.applyWrite (WriteOp.insertCoord
        ⟨tid, msg.plate, qget msg.latitude, qget msg.longitude,
          qget msg.speed, now⟩)) hkeys hopen
    have hcomb := c3Facts_trans hphase0 hloop
    simpa using hcomb

/-- C3 invariant for one `processVehicleData` call (all writes
succeeding): only the head trip of the open-trips query (whose head row is
unended, hence the trip is not closed) is evaluated. -/
theorem processVehicleData_c3 (dist : ℚ × ℚ → ℚ × ℚ → ℚ) (db : DB)
    (msg : VehicleData) (now : Millis) (hkeys : (custKeys db).Nodup) :
    c3Facts db (processVehicleData allOk dist db msg now).db
      (processVehicleData allOk dist db msg now).marks
      (processVehicleData allOk dist db msg now).fires := by
  rw [processVehicleData]
  by_cases hv : (msg.plate.isEmpty || numFalsy msg.latitude ||
      numFalsy msg.longitude) = true
  · simp only [if_pos hv]
    exact c3Facts_refl db
  · simp only [if_neg hv]
    cases hq : db.openTrips msg.plate with
    | nil => exact c3Facts_refl db
    | cons t ts =>
      have htmem : t ∈ db.openTrips msg.plate := by
        rw [hq]; exact List.mem_cons_self t ts
      rw [DB.openTrips, List.mem_filter] at htmem
      have htf : t.vehicle_plate = msg.plate ∧ t.actual_end_time = none := by
        simpa using htmem.2
      have hopen : ¬ tripClosed db t.trip_id := by
        intro hcl
        exact hcl t htmem.1 rfl htf.2
      simp only
      by_cases hstart : t.actual_start_time = none ∧ spGt0 msg.speed = true
      · simp only [if_pos hstart, doWrite_allOk]
        have hopen1 : ¬ tripClosed
            (db.applyWrite (WriteOp.setStart t.trip_id now)) t.trip_id := by
          intro hcl
          have hmem1 : ({ t with actual_start_time := some now } : Trip) ∈
              (db.applyWrite (WriteOp.setStart t.trip_id now)).route_plans := by
            simp only [DB.applyWrite, List.mem_map]
            exact ⟨t, htmem.1, by rw [if_pos rfl]⟩
          exact hcl _ hmem1 rfl htf.2
        have hphase0 : c3Facts db
            (db.applyWrite (WriteOp.setStart t.trip_id now)) [] [] :=
          c3Facts_nil (custRel_of_customers_eq rfl) (applyWrite_endMono db _)
        have hrest := pvdAfterStart_c3 dist
          (db.applyWrite (WriteOp.setStart t.trip_id now)) msg now t.trip_id
          (some now) (some t.trip_id) hkeys hopen1
        have hcomb := c3Facts_trans hphase0 hrest
        simpa using hcomb
      · simp only [if_neg hstart]
        exact pvdAfterStart_c3 dist db msg now t.trip_id t.actual_start_time
          none hkeys hopen

/-- C3 invariant for one full message-handler invocation (all writes
succeeding), combining the long-stop phase and the telemetry phase: a key
marked by the long-stop phase is complete before the telemetry fetch runs,
and a trip fired by the long-stop phase has no unended row left for the
open-trips query, so neither phase repeats the other's side effects. -/
theorem handleMessage_c3 (dist : ℚ × ℚ → ℚ × ℚ → ℚ) (st : ServerState)
    (db : DB) (now : Millis) (msg : VehicleData)
    (hkeys : (custKeys db).Nodup) :
    c3Facts db (handleMessage allOk dist st db now msg).db
      (handleMessage allOk dist st db now msg).marks
      (handleMessage allOk dist st db now msg).fires := by
  rw [handleMessage]
  by_cases hv : (numFalsy msg.latitude || numFalsy msg.longitude) = true
  · simp only [if_pos hv, noEventResult]
    exact c3Facts_refl db
  · simp only [if_neg hv]
    cases hlt : msg.locTime with
    | none =>
      simp only [noEventResult]
      exact c3Facts_refl db
    | some o =>
      cases o with
      | none =>
        simp only [noEventResult]
        exact c3Facts_refl db
      | some t =>
        simp only [trackAndProcess]
        by_cases hsp : (msg.speed == some 0) = true
        · simp only [if_pos hsp]
          cases hstop : st.vehicleStops msg.plate with
          | none =>
            simp only [runProcess]
            exact c3Facts_trans (c3Facts_refl db)
              (processVehicleData_c3 dist db msg now hkeys)
          | some si =>
            dsimp only
            by_cases hfire : 300000 ≤ t - si.stopStart ∧ si.processed = false
            · rw [if_pos hfire]
              have hthok := handleLongStop_allOk_threw dist db msg.plate
                si.location now
              rw [if_neg (by rw [hthok]; exact Bool.false_ne_true)]
              simp only [runProcess]
              have hls := handleLongStop_c3 dist db msg.plate si.location now
                hkeys
              have hkeys2 : (custKeys
                  (handleLongStop allOk dist db msg.plate
                    si.location now).db).Nodup := by
                rw [custRel_keys hls.1]
                exact hkeys
              exact c3Facts_trans hls (processVehicleData_c3 dist _ msg now
                hkeys2)
            · rw [if_neg hfire]
              simp only [runProcess]
              exact c3Facts_trans (c3Facts_refl db)
                (processVehicleData_c3 dist db msg now hkeys)
        · simp only [if_neg hsp, runProcess]
          exact c3Facts_trans (c3Facts_refl db)
            (processVehicleData_c3 dist db msg now hkeys)

/-- C3 invariant for a whole ingestion run (all writes succeeding), by
composing the per-message invariant: marks and fires accumulated across
messages never repeat a key or a trip. -/
theorem runHandler_c3 (dist : ℚ × ℚ → ℚ × ℚ → ℚ) :
    ∀ (msgs : List (Millis × VehicleData)) (st : ServerState) (db : DB),
      (custKeys db).Nodup →
      c3Facts db (runHandler allOk dist st db msgs).2.2
        (((runHandler allOk dist st db msgs).1.map fun r => r.marks).flatten)
        (((runHandler allOk dist st db msgs).1.map fun r => r.fires).flatten)
  | [], st, db => by
    intro _
    simp only [runHandler, List.map_nil, List.flatten_nil]
    exact c3Facts_refl db
  | (now, msg) :: rest, st, db => by
    intro hkeys
    simp only [runHandler]
    have hmsg := handleMessage_c3 dist st db now msg hkeys
    have hkeys2 : (custKeys (handleMessage allOk dist st db now msg).db).Nodup := by
      rw [custRel_keys hmsg.1]
      exact hkeys
    have hrest := runHandler_c3 dist rest
      (handleMessage allOk dist st db now msg).state
      (handleMessage allOk dist st db now msg).db hkeys2
    have hcomb := c3Facts_trans hmsg hrest
    simpa using hcomb

/-- Distance function for the C3 witness: 0 km when the vehicle sits
exactly on the customer point, 10 km otherwise. -/
def distC3 : ℚ × ℚ → ℚ × ℚ → ℚ := fun a b => if a = b then 0 else 10

/-- First planned stop of the witness trip, at (lat 2, lng 1). -/
def custA : Customer :=
  { trip_id := tripA
    customer_code := "CUST-A"
    lat := 2
    lng := 1
    completed := false
    completed_at := none }

/-- Second planned stop of the witness trip, at (lat 4, lng 3). -/
def custB : Customer :=
  { trip_id := tripA
    customer_code := "CUST-B"
    lat := 4
    lng := 3
    completed := false
    completed_at := none }

/-- A store with one started, unended trip for `plateP` and its two
incomplete stops. -/
def dbC3 : DB :=
  { route_plans := [tripRowStarted]
    assigned_customers := [custA, custB]
    trip_coordinates := [] }

/-- A moving sample for `plateP` standing exactly on the first stop. -/
def msgAtA : VehicleData :=
  { plate := plateP
    speed := some 5
    latitude := some 2
    longitude := some 1
    locTime := some (some 1000) }

/-- A moving sample for `plateP` standing exactly on the second stop. -/
def msgAtB : VehicleData :=
  { plate := plateP
    speed := some 5
    latitude := some 4
    longitude := some 3
    locTime := some (some 61000) }

/-- Two separate evaluations: one sample at each of the trip's two stops. -/
def msgsC3 : List (Millis × VehicleData) :=
  [(1000, msgAtA), (61000, msgAtB)]

/-- C3: geofence evaluation is idempotent with respect to already-completed
stops.  Over any ingestion run in which every write succeeds, against any
store whose customer rows have pairwise-distinct
`(trip_id, customer_code)` keys: every marked key was incomplete in the
initial store and no key is ever marked twice (an already-completed stop is
never re-marked — each fetch requests only `completed = false` rows, and
`completed` is monotonic false → true, as the `custRel` conjunct states:
rows keep their position, key, and any `true` value); and the
`complete_trip` side effect fires at most once per trip over the whole
run. -/
theorem c3_geofence_idempotent (dist : ℚ × ℚ → ℚ × ℚ → ℚ)
    (st : ServerState) (db : DB) (msgs : List (Millis × VehicleData))
    (hkeys : (custKeys db).Nodup) :
    (∀ k, (((runHandler allOk dist st db msgs).1.map fun r =>
      r.marks).flatten).count k ≤ 1) ∧
    (∀ k ∈ ((runHandler allOk dist st db msgs).1.map fun r =>
      r.marks).flatten, hasIncomplete db k) ∧
    custRel db (runHandler allOk dist st db msgs).2.2 ∧
    (∀ T, (((runHandler allOk dist st db msgs).1.map fun r =>
      r.fires).flatten).count T ≤ 1) := by
  obtain ⟨h1, h2, h3, h4, h5, h6, h7⟩ := runHandler_c3 dist msgs st db hkeys
  exact ⟨h5, h3, h1, h6⟩

/-- Witness for C3: a trip with two stops, completed by two separate
evaluations (one sample on each stop); the bound of the claim theorem is
attained — the run invokes the trip-completion side effect exactly once. -/
theorem c3_witness :
    (custKeys dbC3).Nodup ∧
    (∀ T, (((runHandler allOk distC3 emptyState dbC3 msgsC3).1.map fun r =>
      r.fires).flatten).count T ≤ 1) ∧
    (((runHandler allOk distC3 emptyState dbC3 msgsC3).1.map fun r =>
      r.fires).flatten).count tripA = 1 :=
  ⟨by decide,
    (c3_geofence_idempotent distC3 emptyState dbC3 msgsC3 (by decide)).2.2.2,
    by decide⟩

/- ### C9: the spec's numeric distance examples -/

theorem arcsin_sqrt_ge {A lo : ℝ} (hA1 : A ≤ 1) (hlo : lo ^ 2 ≤ A)
    (hlo0 : 0 ≤ lo) : lo ≤ Real.arcsin (Real.sqrt A) := by
  have h1 : Real.sqrt A ≤ 1 := by
    rw [show (1 : ℝ) = Real.sqrt 1 from Real.sqrt_one.symm]
    exact Real.sqrt_le_sqrt hA1
  have h2 : lo ≤ Real.sqrt A := by
    calc lo = Real.sqrt (lo ^ 2) := (Real.sqrt_sq hlo0).symm
      _ ≤ Real.sqrt A := Real.sqrt_le_sqrt hlo
  have h3 : Real.sin (Real.arcsin (Real.sqrt A)) = Real.sqrt A :=
    Real.sin_arcsin (by linarith [Real.sqrt_nonneg A]) h1
  have h4 : 0 ≤ Real.arcsin (Real.sqrt A) :=
    Real.arcsin_nonneg.mpr (Real.sqrt_nonneg A)
  calc lo ≤ Real.sqrt A := h2
    _ = Real.sin (Real.arcsin (Real.sqrt A)) := h3.symm
    _ ≤ Real.arcsin (Real.sqrt A) := Real.sin_le h4

theorem arcsin_sqrt_le {A c : ℝ} (hc0 : 0 < c) (hc1 : c ≤ 1)
    (hcsq : A ≤ (c - c ^ 3 / 4) ^ 2) : Real.arcsin (Real.sqrt A) ≤ c := by
  have hc2 : c ^ 2 ≤ 1 := by
    nlinarith [mul_nonneg (by linarith : (0 : ℝ) ≤ 1 - c)
      (by linarith : (0 : ℝ) ≤ 1 + c)]
  have hcb : 0 ≤ c - c ^ 3 / 4 := by
    nlinarith [mul_nonneg hc0.le (by linarith : (0 : ℝ) ≤ 1 - c ^ 2)]
  have h1 : Real.sqrt A ≤ c - c ^ 3 / 4 := by
    calc Real.sqrt A ≤ Real.sqrt ((c - c ^ 3 / 4) ^ 2) := Real.sqrt_le_sqrt hcsq
      _ = c - c ^ 3 / 4 := Real.sqrt_sq hcb
  have h2 : Real.sqrt A ≤ Real.sin c :=
    le_trans h1 (Real.sin_gt_sub_cube hc0 hc1).le
  have h3 : Real.arcsin (Real.sqrt A) ≤ Real.arcsin (Real.sin c) :=
    Real.monotone_arcsin h2
  rwa [Real.arcsin_sin (by nlinarith [Real.pi_gt_three])
    (by nlinarith [Real.pi_gt_three])] at h3

set_option maxHeartbeats 1000000 in
/-- Two-sided bounds for the modelled turf distance between two points
whose latitudes and whose longitudes each differ by `δ` degrees (in either
direction), at latitudes of magnitude at most 80 degrees.  Writing
`h = δ·π/360` for the half-angle, the distance is at least
`2·R·(h - h³/4)` and, for every `c ∈ (0, 1]` with `2h² ≤ (c - c³/4)²`, at
most `2·R·c`, where `R = 6371.0088` is the model's earth radius. -/
theorem turfDistanceKm_bounds (lng1 lat1 lng2 lat2 δ : ℝ)
    (hlng : |lng2 - lng1| = δ) (hlat : |lat2 - lat1| = δ)
    (hδpos : 0 < δ) (hδsm : δ ≤ 1/100)
    (hl1 : |lat1| ≤ 80) (hl2 : |lat2| ≤ 80) :
    2 * 6371.0088 * (δ * Real.pi / 360 - (δ * Real.pi / 360) ^ 3 / 4) ≤
      turfDistanceKm lng1 lat1 lng2 lat2 ∧
    ∀ c : ℝ, 0 < c → c ≤ 1 →
      2 * (δ * Real.pi / 360) ^ 2 ≤ (c - c ^ 3 / 4) ^ 2 →
      turfDistanceKm lng1 lat1 lng2 lat2 ≤ 2 * 6371.0088 * c := by
  have hπl : (3.141592 : ℝ) < Real.pi := Real.pi_gt_d6
  have hπu : Real.pi < 3.141593 := Real.pi_lt_d6
  have hπpos : (0 : ℝ) < Real.pi := Real.pi_pos
  have hhpos : 0 < δ * Real.pi / 360 := by positivity
  have hh1000 : δ * Real.pi / 360 ≤ 1/1000 := by
    nlinarith [mul_nonneg (by linarith : (0 : ℝ) ≤ 1/100 - δ) hπpos.le]
  have hh1 : δ * Real.pi / 360 ≤ 1 := by linarith
  have hhpi : δ * Real.pi / 360 ≤ Real.pi := by linarith
  have hsin0 : 0 ≤ Real.sin (δ * Real.pi / 360) :=
    Real.sin_nonneg_of_nonneg_of_le_pi hhpos.le hhpi
  have hsinle : Real.sin (δ * Real.pi / 360) ≤ δ * Real.pi / 360 :=
    Real.sin_le hhpos.le
  have hsinlb : δ * Real.pi / 360 - (δ * Real.pi / 360) ^ 3 / 4 <
      Real.sin (δ * Real.pi / 360) := Real.sin_gt_sub_cube hhpos hh1
  have hcos : ∀ l : ℝ, |l| ≤ 80 → 0 ≤ Real.cos (l * Real.pi / 180) := by
    intro l hl
    apply Real.cos_nonneg_of_mem_Icc
    obtain ⟨hla, hlb⟩ := abs_le.mp hl
    constructor
    · nlinarith [mul_nonneg (by linarith : (0 : ℝ) ≤ l + 80) hπpos.le]
    · nlinarith [mul_nonneg (by linarith : (0 : ℝ) ≤ 80 - l) hπpos.le]
  have hsq : ∀ x : ℝ, |x| = δ →
      Real.sin (x * Real.pi / 180 / 2) ^ 2 =
        Real.sin (δ * Real.pi / 360) ^ 2 := by
    intro x hx
    rcases (abs_eq hδpos.le).mp hx with h1 | h1
    · rw [h1, show δ * Real.pi / 180 / 2 = δ * Real.pi / 360 from by ring]
    · rw [h1, show -δ * Real.pi / 180 / 2 = -(δ * Real.pi / 360) from by ring,
        Real.sin_neg, neg_sq]
  have ha_eq : turfDistanceKm lng1 lat1 lng2 lat2 =
      2 * Real.arcsin (Real.sqrt
        (Real.sin ((lat2 - lat1) * Real.pi / 180 / 2) ^ 2 +
          Real.sin ((lng2 - lng1) * Real.pi / 180 / 2) ^ 2 *
            Real.cos (lat1 * Real.pi / 180) *
            Real.cos (lat2 * Real.pi / 180))) * 6371.0088 := rfl
  have hC0 : 0 ≤ Real.sin (δ * Real.pi / 360) ^ 2 *
      Real.cos (lat1 * Real.pi / 180) * Real.cos (lat2 * Real.pi / 180) :=
    mul_nonneg (mul_nonneg (sq_nonneg _) (hcos lat1 hl1)) (hcos lat2 hl2)
  have hC1 : Real.sin (δ * Real.pi / 360) ^ 2 *
      Real.cos (lat1 * Real.pi / 180) * Real.cos (lat2 * Real.pi / 180) ≤
      Real.sin (δ * Real.pi / 360) ^ 2 := by
    rw [mul_assoc]
    refine mul_le_of_le_one_right (sq_nonneg _) ?_
    exact mul_le_one₀ (Real.cos_le_one _) (hcos lat2 hl2) (Real.cos_le_one _)
  have hs2 : Real.sin (δ * Real.pi / 360) ^ 2 ≤ (δ * Real.pi / 360) ^ 2 :=
    pow_le_pow_left₀ hsin0 hsinle 2
  have hA_lb : Real.sin (δ * Real.pi / 360) ^ 2 ≤
      Real.sin (δ * Real.pi / 360) ^ 2 +
        Real.sin (δ * Real.pi / 360) ^ 2 *
          Real.cos (lat1 * Real.pi / 180) *
          Real.cos (lat2 * Real.pi / 180) := by linarith
  have hA_ub : Real.sin (δ * Real.pi / 360) ^ 2 +
      Real.sin (δ * Real.pi / 360) ^ 2 *
        Real.cos (lat1 * Real.pi / 180) *
        Real.cos (lat2 * Real.pi / 180) ≤ 2 * (δ * Real.pi / 360) ^ 2 := by
    linarith
  have hA1 : Real.sin (δ * Real.pi / 360) ^ 2 +
      Real.sin (δ * Real.pi / 360) ^ 2 *
        Real.cos (lat1 * Real.pi / 180) *
        Real.cos (lat2 * Real.pi / 180) ≤ 1 := by
    nlinarith [mul_nonneg (by linarith : (0 : ℝ) ≤ 1/1000 - δ * Real.pi / 360)
      hhpos.le]
  have hsq1 : (δ * Real.pi / 360) ^ 2 ≤ 1 := by
    nlinarith [mul_nonneg (by linarith : (0 : ℝ) ≤ 1 - δ * Real.pi / 360)
      hhpos.le]
  have hcube : (δ * Real.pi / 360) ^ 3 ≤ δ * Real.pi / 360 := by
    nlinarith [mul_nonneg hhpos.le
      (by linarith : (0 : ℝ) ≤ 1 - (δ * Real.pi / 360) ^ 2)]
  have hlo0 : 0 ≤ δ * Real.pi / 360 - (δ * Real.pi / 360) ^ 3 / 4 := by
    linarith
  constructor
  · rw [ha_eq, hsq _ hlat, hsq _ hlng]
    have hlo2 : (δ * Real.pi / 360 - (δ * Real.pi / 360) ^ 3 / 4) ^ 2 ≤
        Real.sin (δ * Real.pi / 360) ^ 2 +
          Real.sin (δ * Real.pi / 360) ^ 2 *
            Real.cos (lat1 * Real.pi / 180) *
            Real.cos (lat2 * Real.pi / 180) :=
      le_trans (pow_le_pow_left₀ hlo0 hsinlb.le 2) hA_lb
    have harc := arcsin_sqrt_ge hA1 hlo2 hlo0
    linarith
  · intro c hc0 hc1 hcsq
    rw [ha_eq, hsq _ hlat, hsq _ hlng]
    have harc := arcsin_sqrt_le hc0 hc1 (le_trans hA_ub hcsq)
    linarith

/-- Numeric bounds at the spec's first example: the stop at
(-26.1450, 28.0446) is about 0.149 km from the vehicle at
(-26.1440, 28.0436) — between 0.1 and 0.16 km, not approximately
1.4 km. -/
theorem firstStop_distance_bounds :
    1/10 ≤ turfDistanceKm 28.0436 (-26.1440) 28.0446 (-26.1450) ∧
    turfDistanceKm 28.0436 (-26.1440) 28.0446 (-26.1450) ≤ 16/100 := by
  obtain ⟨hlow, hup⟩ := turfDistanceKm_bounds 28.0436 (-26.1440) 28.0446
    (-26.1450) (1/1000)
    (by rw [abs_eq (by norm_num : (0:ℝ) ≤ 1/1000)]; norm_num)
    (by rw [abs_eq (by norm_num : (0:ℝ) ≤ 1/1000)]; norm_num)
    (by norm_num) (by norm_num)
    (by rw [abs_le]; constructor <;> norm_num)
    (by rw [abs_le]; constructor <;> norm_num)
  have hπl : (3.141592 : ℝ) < Real.pi := Real.pi_gt_d6
  have hπu : Real.pi < 3.141593 := Real.pi_lt_d6
  have hb1 : (3141592 : ℝ)/1000000/360000 ≤ (1/1000 : ℝ) * Real.pi / 360 := by
    nlinarith
  have hb2 : (1/1000 : ℝ) * Real.pi / 360 ≤ (3141593 : ℝ)/1000000/360000 := by
    nlinarith
  have hb3 : ((1/1000 : ℝ) * Real.pi / 360) ^ 3 ≤
      ((3141593 : ℝ)/1000000/360000) ^ 3 :=
    pow_le_pow_left₀ (by positivity) hb2 3
  constructor
  · refine le_trans ?_ hlow
    nlinarith [hb1, hb3]
  · refine le_trans (hup (1235/100000000) (by norm_num) (by norm_num) ?_)
      (by norm_num)
    have hb4 : ((1/1000 : ℝ) * Real.pi / 360) ^ 2 ≤
        ((3141593 : ℝ)/1000000/360000) ^ 2 :=
      pow_le_pow_left₀ (by positivity) hb2 2
    nlinarith [hb4]

/-- Numeric bounds at the spec's second example: the stop at
(-26.1441, 28.0437) is about 0.0149 km from the vehicle at
(-26.1440, 28.0436) — between 0.01 and 0.016 km. -/
theorem secondStop_distance_bounds :
    1/100 ≤ turfDistanceKm 28.0436 (-26.1440) 28.0437 (-26.1441) ∧
    turfDistanceKm 28.0436 (-26.1440) 28.0437 (-26.1441) ≤ 16/1000 := by
  obtain ⟨hlow, hup⟩ := turfDistanceKm_bounds 28.0436 (-26.1440) 28.0437
    (-26.1441) (1/10000)
    (by rw [abs_eq (by norm_num : (0:ℝ) ≤ 1/10000)]; norm_num)
    (by rw [abs_eq (by norm_num : (0:ℝ) ≤ 1/10000)]; norm_num)
    (by norm_num) (by norm_num)
    (by rw [abs_le]; constructor <;> norm_num)
    (by rw [abs_le]; constructor <;> norm_num)
  have hπl : (3.141592 : ℝ) < Real.pi := Real.pi_gt_d6
  have hπu : Real.pi < 3.141593 := Real.pi_lt_d6
  have hb1 : (3141592 : ℝ)/1000000/3600000 ≤ (1/10000 : ℝ) * Real.pi / 360 := by
    nlinarith
  have hb2 : (1/10000 : ℝ) * Real.pi / 360 ≤ (3141593 : ℝ)/1000000/3600000 := by
    nlinarith
  have hb3 : ((1/10000 : ℝ) * Real.pi / 360) ^ 3 ≤
      ((3141593 : ℝ)/1000000/3600000) ^ 3 :=
    pow_le_pow_left₀ (by positivity) hb2 3
  constructor
  · refine le_trans ?_ hlow
    nlinarith [hb1, hb3]
  · refine le_trans (hup (1235/1000000000) (by norm_num) (by norm_num) ?_)
      (by norm_num)
    have hb4 : ((1/10000 : ℝ) * Real.pi / 360) ^ 2 ≤
        ((3141593 : ℝ)/1000000/3600000) ^ 2 :=
      pow_le_pow_left₀ (by positivity) hb2 2
    nlinarith [hb4]

/-- C9 counterexample: at the spec's first example pair — vehicle at
(-26.1440, 28.0436), customer stop at (-26.1450, 28.0446) — the modelled
turf distance is at most 0.16 km, not approximately 1.4 km, and the stop
IS within the 1.0 km completion radius (so the geofence marks it
completed), refuting the claimed "≈1.4 km → NOT completed". -/
theorem c9_counterexample :
    turfDistanceKm 28.0436 (-26.1440) 28.0446 (-26.1450) ≤ 16/100 ∧
    withinLiveRadius 28.0436 (-26.1440) 28.0446 (-26.1450) ∧
    ¬ (7/5 ≤ turfDistanceKm 28.0436 (-26.1440) 28.0446 (-26.1450)) := by
  obtain ⟨h1, h2⟩ := firstStop_distance_bounds
  refine ⟨h2, ?_, ?_⟩
  · rw [withinLiveRadius]
    linarith
  · intro hc
    linarith

/-- C9 (amended): for a vehicle position (-26.1440, 28.0436) and
completion radius 1.0 km, the geofence evaluation computes a great-circle
distance of approximately 0.149 km (between 0.1 and 0.16 km) to a
customer stop at (-26.1450, 28.0446) and DOES mark that stop completed
(it is within the radius), and approximately 0.0149 km (between 0.01 and
0.016 km) to a customer stop at (-26.1441, 28.0437), which it also marks
completed. -/
theorem c9_distances_and_marking :
    (1/10 ≤ turfDistanceKm 28.0436 (-26.1440) 28.0446 (-26.1450) ∧
      turfDistanceKm 28.0436 (-26.1440) 28.0446 (-26.1450) ≤ 16/100 ∧
      withinLiveRadius 28.0436 (-26.1440) 28.0446 (-26.1450)) ∧
    (1/100 ≤ turfDistanceKm 28.0436 (-26.1440) 28.0437 (-26.1441) ∧
      turfDistanceKm 28.0436 (-26.1440) 28.0437 (-26.1441) ≤ 16/1000 ∧
      withinLiveRadius 28.0436 (-26.1440) 28.0437 (-26.1441)) := by
  obtain ⟨ha1, ha2⟩ := firstStop_distance_bounds
  obtain ⟨hb1, hb2⟩ := secondStop_distance_bounds
  exact ⟨⟨ha1, ha2, by rw [withinLiveRadius]; linarith⟩,
    ⟨hb1, hb2, by rw [withinLiveRadius]; linarith⟩⟩

end FidelityServer
